import Mathlib

/-!
Verification development for the Trust Oracle backend server (WebSocket gateway,
Ed25519-signed step submissions, SQLite staging store, batch chain submitter,
and the derived virtual-pet state).

The JavaScript sources are embedded shallowly:

* `cryptoManager.mjs` — `buildCanonicalJSON`, `verifySignature`, `signData`,
  `validatePayload` become pure Lean functions over an explicit JSON value type.
  Numbers are modelled as `Int` (the device payload fields are integers; the
  integer range of IEEE doubles serializes in plain decimal, which is what the
  embedded serializer produces).  SHA-256 and tweetnacl's Ed25519 are external
  library primitives; they are modelled ideally: the digest is the message
  wrapped in a constructor (a collision-free hash), and a detached signature is
  the pair of the signed digest and the signing key, verified by equality.
  Only functionality and collision-freeness of those primitives are used.
* `deviceManager.mjs` — the SQLite tables become lists of records; each SQL
  statement becomes the corresponding list transformation (filters, maps,
  stable sort by the ORDER BY column).
* server (`server.mjs`) — the WebSocket message handlers become functions from
  (store, message, session data) to (response, store).
* `petManager.mjs` — the pet row becomes a record, each UPDATE a record update.
-/

/-! ### JSON values and the canonical serializer (`cryptoManager.buildCanonicalJSON`) -/

/-- JSON value as occurring in device payloads: numbers (integer-valued),
strings, and (nested) arrays. -/
inductive JValue where
  | jnum (i : Int)
  | jstr (s : String)
  | jarr (elems : List JValue)

/-- Decimal digit character, `d` expected below 10 (larger inputs collapse
to the last branch, mirroring that callers only pass digits). -/
def digitChar (d : Nat) : Char :=
  if d = 0 then '0' else if d = 1 then '1' else if d = 2 then '2'
  else if d = 3 then '3' else if d = 4 then '4' else if d = 5 then '5'
  else if d = 6 then '6' else if d = 7 then '7' else if d = 8 then '8' else '9'

/-- Base-10 digits of `n`, least significant first, by explicit fuel
(sufficient fuel is supplied by callers; the fuel keeps every evaluation a
plain structural computation). -/
def digitsBase10 : Nat → Nat → List Nat
  | 0, _ => []
  | fuel + 1, n => if n = 0 then [] else n % 10 :: digitsBase10 fuel (n / 10)

/-- Base-10 digits of `n`, least significant first. -/
def natDigits10 (n : Nat) : List Nat := digitsBase10 n n

/-- Decimal representation of a natural number, most significant digit first,
as `JSON.stringify` prints a nonnegative integer. -/
def natReprChars (n : Nat) : List Char :=
  if n = 0 then ['0'] else ((natDigits10 n).map digitChar).reverse

/-- Decimal representation of an integer as `JSON.stringify` prints it. -/
def intReprChars (i : Int) : List Char :=
  if i < 0 then '-' :: natReprChars i.natAbs else natReprChars i.natAbs

/-- Lower-case hexadecimal digit character (`n` expected below 16). -/
def hexChar (n : Nat) : Char :=
  if n = 0 then '0' else if n = 1 then '1' else if n = 2 then '2'
  else if n = 3 then '3' else if n = 4 then '4' else if n = 5 then '5'
  else if n = 6 then '6' else if n = 7 then '7' else if n = 8 then '8'
  else if n = 9 then '9' else if n = 10 then 'a' else if n = 11 then 'b'
  else if n = 12 then 'c' else if n = 13 then 'd' else if n = 14 then 'e' else 'f'

/-- Escaping of one character inside a JSON string literal, exactly as
`JSON.stringify` (ECMA-262 QuoteJSONString) emits it. -/
def escChar (c : Char) : List Char :=
  if c = '"' then ['\\', '"']
  else if c = '\\' then ['\\', '\\']
  else if c = '\x08' then ['\\', 'b']
  else if c = '\x0c' then ['\\', 'f']
  else if c = '\n' then ['\\', 'n']
  else if c = '\r' then ['\\', 'r']
  else if c = '\t' then ['\\', 't']
  else if c.toNat < 32 then ['\\', 'u', '0', '0', hexChar (c.toNat / 16), hexChar (c.toNat % 16)]
  else [c]

/-- Escaping of a whole string body (concatenation of per-character escapes). -/
def escStr : List Char → List Char
  | [] => []
  | c :: l => escChar c ++ escStr l

/-- Quoted JSON string literal. -/
def quoteChars (s : String) : List Char := '"' :: (escStr s.data ++ ['"'])

mutual

/-- Compact JSON serialization of a value (`JSON.stringify`, no whitespace). -/
def stringifyChars : JValue → List Char
  | .jnum i => intReprChars i
  | .jstr s => quoteChars s
  | .jarr xs => '[' :: (stringifySep xs ++ [']'])

/-- Comma-separated serialization of array elements. -/
def stringifySep : List JValue → List Char
  | [] => []
  | [x] => stringifyChars x
  | x :: y :: xs => stringifyChars x ++ ',' :: stringifySep (y :: xs)

end

/-- One `"key":value` member of a JSON object. -/
def entryChars (kv : String × JValue) : List Char :=
  quoteChars kv.1 ++ ':' :: stringifyChars kv.2

/-- Comma-separated object members. -/
def objBody : List (String × JValue) → List Char
  | [] => []
  | [kv] => entryChars kv
  | kv :: kv2 :: l => entryChars kv ++ ',' :: objBody (kv2 :: l)

/-- Compact JSON object with members in the given order. -/
def stringifyObjChars (fields : List (String × JValue)) : List Char :=
  '\x7b' :: (objBody fields ++ ['\x7d'])

/-- Code-unit lexicographic comparison on character lists, as JavaScript
`Array.prototype.sort()` compares strings. -/
def charListLe : List Char → List Char → Bool
  | [], _ => true
  | _ :: _, [] => false
  | a :: as, b :: bs =>
    if a.toNat < b.toNat then true
    else if b.toNat < a.toNat then false
    else charListLe as bs

/-- Lexicographic string comparison used for key sorting. -/
def keyLe (a b : String) : Bool := charListLe a.data b.data

/-- Insertion into a key-sorted association list (kept stable). -/
def orderedInsertKV (a : String × JValue) : List (String × JValue) → List (String × JValue)
  | [] => [a]
  | b :: l => if keyLe a.1 b.1 then a :: b :: l else b :: orderedInsertKV a l

/-- Stable insertion sort of object members by key (`Object.keys(obj).sort()`
followed by rebuilding the object in sorted key order). -/
def sortByKey : List (String × JValue) → List (String × JValue)
  | [] => []
  | a :: l => orderedInsertKV a (sortByKey l)

/-- `CryptoManager.buildCanonicalJSON`: sort the keys, rebuild the object in
sorted order, emit compact JSON.  The input object is an association list in
its insertion order; object keys are unique by construction in JavaScript. -/
def buildCanonicalJSON (obj : List (String × JValue)) : String :=
  ⟨stringifyObjChars (sortByKey obj)⟩

/-! ### The step-data payload and the ideal crypto primitives -/

/-- The step-data payload as built by `handleStepData` for verification:
`{deviceId, stepCount, timestamp, firmwareVersion, batteryPercent, rawAccSamples}`. -/
structure Payload where
  deviceId : String
  stepCount : Int
  timestamp : Int
  firmwareVersion : Int
  batteryPercent : Int
  rawAccSamples : List (List Int)
deriving DecidableEq, Repr

/-- The `rawAccSamples` field as a JSON value (array of arrays of numbers). -/
def samplesJ (samples : List (List Int)) : JValue :=
  .jarr (samples.map (fun row => .jarr (row.map .jnum)))

/-- The payload as the object `handleStepData` constructs, in the source's
insertion order (deviceId, stepCount, timestamp, firmwareVersion,
batteryPercent, rawAccSamples). -/
def payloadFields (p : Payload) : List (String × JValue) :=
  [("deviceId", .jstr p.deviceId),
   ("stepCount", .jnum p.stepCount),
   ("timestamp", .jnum p.timestamp),
   ("firmwareVersion", .jnum p.firmwareVersion),
   ("batteryPercent", .jnum p.batteryPercent),
   ("rawAccSamples", samplesJ p.rawAccSamples)]

/-- Canonical JSON of a step-data payload. -/
def canonicalPayload (p : Payload) : String :=
  buildCanonicalJSON (payloadFields p)

/-- SHA-256 digest, modelled ideally: the digest of a message is the message
itself under a constructor, so distinct messages have distinct digests
(collision-freeness) and equal messages have equal digests (functionality).
These are the only properties of `crypto.createHash('sha256')` the proofs use. -/
structure Sha256Digest where
  msg : String
deriving DecidableEq, Repr

/-- Ideal SHA-256 (see `Sha256Digest`). -/
def sha256 (s : String) : Sha256Digest := ⟨s⟩

/-- Detached Ed25519 signature, modelled ideally as the signed digest together
with the signing key; `tweetnacl` key pairs are identified by a single `Nat`
(public key = secret key identity). -/
structure DetachedSig where
  digest : Sha256Digest
  signer : Nat
deriving DecidableEq, Repr

/-- Ideal `nacl.sign.detached`. -/
def naclSignDetached (d : Sha256Digest) (secretKey : Nat) : DetachedSig :=
  ⟨d, secretKey⟩

/-- Ideal `nacl.sign.detached.verify`: a signature verifies exactly for the
digest it signed under the matching key pair. -/
def naclVerifyDetached (d : Sha256Digest) (sig : DetachedSig) (publicKey : Nat) : Bool :=
  decide (sig.digest = d ∧ sig.signer = publicKey)

/-- `CryptoManager.verifySignature`: canonical JSON, then SHA-256, then
detached Ed25519 verification of the hash (not of the raw message). -/
def verifySignature (p : Payload) (sig : DetachedSig) (publicKey : Nat) : Bool :=
  naclVerifyDetached (sha256 (canonicalPayload p)) sig publicKey

/-- `CryptoManager.signData`: canonical JSON, then SHA-256, then detached
Ed25519 signature over the hash. -/
def signData (p : Payload) (secretKey : Nat) : DetachedSig :=
  naclSignDetached (sha256 (canonicalPayload p)) secretKey

/-! ### JavaScript truthiness helpers for optional message fields -/

/-- Truthiness of an optional string field (`undefined` and the empty string
are falsy). -/
def jsTruthyStr (v : Option String) : Bool :=
  match v with
  | none => false
  | some s => !(s == "")

/-- Truthiness of an optional numeric field (`undefined` and `0` are falsy). -/
def jsTruthyInt (v : Option Int) : Bool :=
  match v with
  | none => false
  | some x => !(x == 0)

/-- The JavaScript `v || dflt` idiom on a numeric field: `undefined` and `0`
fall back to the default, every other number is kept. -/
def jsOrInt (v : Option Int) (dflt : Int) : Int :=
  match v with
  | none => dflt
  | some x => if x == 0 then dflt else x

/-! ### The durable store (`deviceManager.mjs`) -/

/-- Row of the `devices` table.  The stored hex public key is abstracted to
the ideal key identity (`Nat`), matching the ideal Ed25519 model. -/
structure Device where
  device_id : String
  public_key : Nat
  registered_at : Int
  last_seen : Int
  total_steps : Int
  total_submissions : Int
  status : String
  sui_device_object_id : Option String
deriving DecidableEq, Repr

/-- Row of the `step_data` table.  `raw_samples` holds
`JSON.stringify(rawAccSamples || [])` exactly as stored. -/
structure StepRecord where
  id : Nat
  device_id : String
  step_count : Int
  timestamp : Int
  raw_samples : String
  battery_percent : Int
  signature : DetachedSig
  verified : Bool
  received_at : Int
  submitted_to_chain : Bool
  tx_digest : Option String
deriving DecidableEq, Repr

/-- The SQLite database: both tables plus the AUTOINCREMENT counter of
`step_data.id`.  Lists are in insertion (rowid) order. -/
structure DeviceDb where
  devices : List Device
  steps : List StepRecord
  nextStepId : Nat
deriving DecidableEq, Repr

/-- `DeviceManager.getDevice`: `SELECT * FROM devices WHERE device_id = ?`. -/
def getDevice (db : DeviceDb) (deviceId : String) : Option Device :=
  db.devices.find? (fun d => d.device_id == deviceId)

/-- `DeviceManager.registerDevice`.  The INSERT is subject to two UNIQUE
constraints (`device_id` primary key, `public_key` UNIQUE); on either
violation the catch branch runs `UPDATE devices SET last_seen = ? WHERE
device_id = ?` and returns `getDevice(deviceId)` — which is `none` when the
conflict was a different device id bound to the same public key, since the
UPDATE then matches no row. -/
def registerDevice (db : DeviceDb) (deviceId : String) (publicKey : Nat) (now : Int) :
    Option Device × DeviceDb :=
  if db.devices.any (fun d => d.device_id == deviceId) ||
      db.devices.any (fun d => d.public_key == publicKey) then
    let devices' := db.devices.map (fun d =>
      if d.device_id == deviceId then { d with last_seen := now } else d)
    let db' := { db with devices := devices' }
    (getDevice db' deviceId, db')
  else
    let dev : Device :=
      { device_id := deviceId, public_key := publicKey, registered_at := now,
        last_seen := now, total_steps := 0, total_submissions := 0,
        status := "active", sui_device_object_id := none }
    (some dev, { db with devices := db.devices ++ [dev] })

/-- `DeviceManager.storeStepData`: INSERT the submission row (battery percent
defaulted by `batteryPercent || 100`, samples serialized from
`rawAccSamples || []`), then add the step count to the owning device's
cumulative total and update `last_seen`.  No duplicate check of any kind is
performed (the schema has no uniqueness constraint besides the rowid).  The
source then returns `result.lastID`, which its promisified `db.run` never
provides; the caller does not await the call, so the row id is never
observed — the embedding returns only the updated store. -/
def storeStepData (db : DeviceDb) (deviceId : String) (stepCount timestamp : Int)
    (rawAccSamples : Option (List (List Int))) (batteryPercent : Option Int)
    (signature : DetachedSig) (verified : Bool) (now : Int) : DeviceDb :=
  let row : StepRecord :=
    { id := db.nextStepId, device_id := deviceId, step_count := stepCount,
      timestamp := timestamp,
      raw_samples := ⟨stringifyChars (samplesJ (rawAccSamples.getD []))⟩,
      battery_percent := jsOrInt batteryPercent 100,
      signature := signature, verified := verified, received_at := now,
      submitted_to_chain := false, tx_digest := none }
  let devices' := db.devices.map (fun d =>
    if d.device_id == deviceId then
      { d with total_steps := d.total_steps + stepCount, last_seen := now }
    else d)
  { devices := devices', steps := db.steps ++ [row], nextStepId := db.nextStepId + 1 }

/-- Stable insertion of a record into a list sorted by `received_at`
ascending. -/
def orderedInsertRec (a : StepRecord) : List StepRecord → List StepRecord
  | [] => [a]
  | b :: l => if a.received_at ≤ b.received_at then a :: b :: l else b :: orderedInsertRec a l

/-- Stable sort by `received_at` ascending (`ORDER BY received_at ASC`). -/
def sortByReceivedAt : List StepRecord → List StepRecord
  | [] => []
  | a :: l => orderedInsertRec a (sortByReceivedAt l)

/-- Row predicate of the pending scan: `submitted_to_chain = 0 AND verified = 1`
plus the optional device filter (only applied when the argument is truthy,
mirroring `if (deviceId)`). -/
def pendingPred (deviceId : Option String) (r : StepRecord) : Bool :=
  !r.submitted_to_chain && r.verified &&
    (if jsTruthyStr deviceId then r.device_id == deviceId.getD "" else true)

/-- `DeviceManager.getPendingStepData`: the filtered rows ordered by receive
time ascending. -/
def getPendingStepData (db : DeviceDb) (deviceId : Option String) : List StepRecord :=
  sortByReceivedAt (db.steps.filter (pendingPred deviceId))

/-- `DeviceManager.markAsSubmitted`: flip `submitted_to_chain` and set the
transaction digest on all listed rows, then increment `total_submissions`
once for each distinct affected device. -/
def markAsSubmitted (db : DeviceDb) (dataIds : List Nat) (txDigest : String) : DeviceDb :=
  let steps' := db.steps.map (fun r =>
    if r.id ∈ dataIds then
      { r with submitted_to_chain := true, tx_digest := some txDigest }
    else r)
  let affected : List String :=
    (db.steps.filter (fun r => decide (r.id ∈ dataIds))).map (fun r => r.device_id)
  let devices' := db.devices.map (fun d =>
    if d.device_id ∈ affected then
      { d with total_submissions := d.total_submissions + 1 }
    else d)
  { db with steps := steps', devices := devices' }

/-! ### Payload validation (`CryptoManager.validatePayload`) -/

/-- The object `handleStepData` passes to `validatePayload`: the verification
payload spread together with the signature.  Fields the wire message may omit
are optional. -/
structure ValidationInput where
  deviceId : Option String
  stepCount : Option Int
  timestamp : Option Int
  batteryPercent : Option Int
  signature : Option DetachedSig
deriving DecidableEq, Repr

/-- `CryptoManager.validatePayload`: accumulates the error strings in source
order and is valid exactly when none accumulated.  The temporal window is
7 days into the past and 5 minutes into the future, checked only when the
timestamp is truthy. -/
def validatePayload (now : Int) (p : ValidationInput) : Bool × List String :=
  let errs1 := if jsTruthyStr p.deviceId then [] else ["Missing or invalid deviceId"]
  let errs2 := if jsTruthyInt p.stepCount then [] else ["Missing or invalid stepCount"]
  let errs3 := if jsTruthyInt p.timestamp then [] else ["Missing or invalid timestamp"]
  let errs4 := if p.signature.isSome then [] else ["Missing or invalid signature"]
  let errs5 :=
    if jsTruthyInt p.stepCount &&
        (p.stepCount.getD 0 < 0 || p.stepCount.getD 0 > 100000) then
      ["Step count out of range (0-100000)"]
    else []
  let maxAge : Int := 7 * 24 * 60 * 60 * 1000
  let maxFuture : Int := 5 * 60 * 1000
  let errs6 :=
    if jsTruthyInt p.timestamp then
      (if p.timestamp.getD 0 > now + maxFuture then ["Timestamp is too far in the future"] else []) ++
      (if p.timestamp.getD 0 < now - maxAge then ["Timestamp is too old (max 7 days)"] else [])
    else []
  let errs7 :=
    if p.batteryPercent.isSome &&
        (p.batteryPercent.getD 0 < 0 || p.batteryPercent.getD 0 > 100) then
      ["Battery percent out of range (0-100)"]
    else []
  let errors := errs1 ++ errs2 ++ errs3 ++ errs4 ++ errs5 ++ errs6 ++ errs7
  (errors.isEmpty, errors)

/-! ### The WebSocket message handlers (server) -/

/-- Inbound `step_data` message (all fields as the wire may or may not carry
them). -/
structure StepDataMsg where
  deviceId : Option String
  stepCount : Option Int
  timestamp : Option Int
  batteryPercent : Option Int
  rawAccSamples : Option (List (List Int))
  firmwareVersion : Option Int
  signature : Option DetachedSig
deriving DecidableEq, Repr

/-- Outbound `step_data_response` frame.  The success frame additionally
carries `dataId`, which in the source is the un-awaited promise of
`storeStepData` (serialized as an empty object); it carries no information
and is omitted here. -/
structure StepDataResponse where
  success : Bool
  error : Option String
  stepCount : Option Int
  verified : Bool
deriving DecidableEq, Repr

/-- The verification payload `handleStepData` builds from the message:
`firmwareVersion`, `batteryPercent` and `rawAccSamples` defaulted via `||`
(so `0` and absent both become `100`, absent samples become `[]`), the other
fields taken raw.  The raw numeric fields are totalized with `getD 0`; the
handler only uses the payload after `validatePayload` has accepted the same
values, which requires them to be present and nonzero. -/
def serverPayload (msg : StepDataMsg) : Payload :=
  { deviceId := msg.deviceId.getD "",
    stepCount := msg.stepCount.getD 0,
    timestamp := msg.timestamp.getD 0,
    firmwareVersion := jsOrInt msg.firmwareVersion 100,
    batteryPercent := jsOrInt msg.batteryPercent 100,
    rawAccSamples := msg.rawAccSamples.getD [] }

/-- Placeholder signature used only to totalize `Option.getD`; every branch
that uses it is guarded by a validation that forces the field present. -/
def nullSig : DetachedSig := ⟨⟨""⟩, 0⟩

/-- The object `handleStepData` passes to `validatePayload`: the verification
payload (with its `||`-defaulted battery percent) spread together with the
raw signature field. -/
def serverValidationInput (msg : StepDataMsg) : ValidationInput :=
  { deviceId := msg.deviceId, stepCount := msg.stepCount, timestamp := msg.timestamp,
    batteryPercent := some (jsOrInt msg.batteryPercent 100), signature := msg.signature }

/-- `handleStepData`: device-id match against the authenticated session,
device lookup, payload construction with `||` defaults, `validatePayload`,
`verifySignature` against the device's stored key, then `storeStepData` with
the raw message fields.  After storing, the source calls
`deviceManager.updateFirmwareVersion(...)` when the message's firmware
version is truthy — a method that does not exist on `DeviceManager` — so
that branch raises a TypeError which the handler's catch turns into a
failure response (the row, however, is already stored). -/
def handleStepData (db : DeviceDb) (msg : StepDataMsg) (authenticatedDeviceId : String)
    (now : Int) : StepDataResponse × DeviceDb :=
  if msg.deviceId != some authenticatedDeviceId then
    ({ success := false, error := some "Device ID mismatch", stepCount := none,
       verified := false }, db)
  else
    match getDevice db authenticatedDeviceId with
    | none =>
      ({ success := false, error := some "Device not found", stepCount := none,
         verified := false }, db)
    | some device =>
      let validation := validatePayload now (serverValidationInput msg)
      if !validation.1 then
        ({ success := false,
           error := some ("Validation failed: " ++ String.intercalate ", " validation.2),
           stepCount := none, verified := false }, db)
      else if !verifySignature (serverPayload msg) (msg.signature.getD nullSig)
          device.public_key then
        ({ success := false, error := some "Invalid signature", stepCount := none,
           verified := false }, db)
      else
        let db' := storeStepData db authenticatedDeviceId (msg.stepCount.getD 0)
          (msg.timestamp.getD 0) msg.rawAccSamples msg.batteryPercent
          (msg.signature.getD nullSig) true now
        if jsTruthyInt msg.firmwareVersion then
          ({ success := false,
             error := some "deviceManager.updateFirmwareVersion is not a function",
             stepCount := none, verified := false }, db')
        else
          ({ success := true, error := none, stepCount := msg.stepCount,
             verified := true }, db')

/-- Outbound `register_response` frame (the best-effort chain registration
result is orthogonal to the store semantics and omitted). -/
structure RegisterResponse where
  success : Bool
  device : Option Device
  error : Option String
deriving DecidableEq, Repr

/-- `handleRegister`: missing fields throw; otherwise `registerDevice` runs
and the handler replies `success: true` with whatever device record (possibly
none) the store returned. -/
def handleRegister (db : DeviceDb) (deviceId : Option String) (publicKey : Option Nat)
    (now : Int) : RegisterResponse × DeviceDb :=
  if !jsTruthyStr deviceId || !publicKey.isSome then
    ({ success := false, device := none, error := some "Missing deviceId or publicKey" }, db)
  else
    let r := registerDevice db (deviceId.getD "") (publicKey.getD 0) now
    ({ success := true, device := r.1, error := none }, r.2)

/-- Per-connection session data of the `wss.on('connection')` closure:
`deviceId` (set by a successful authenticate) and the `authenticated` flag.
A fresh connection has neither. -/
structure Session where
  deviceId : Option String
  authenticated : Bool
deriving DecidableEq, Repr

/-- The session state of a connection that has only been accepted. -/
def freshSession : Session := { deviceId := none, authenticated := false }

/-- Outbound `auth_response` frame. -/
structure AuthResponse where
  success : Bool
  deviceId : Option String
  error : Option String
deriving DecidableEq, Repr

/-- `handleAuthenticate`: requires only that the device id be present and
registered in the store; no session precondition and no challenge check. -/
def handleAuthenticate (db : DeviceDb) (msgDeviceId : Option String) : AuthResponse :=
  if !jsTruthyStr msgDeviceId then
    { success := false, deviceId := none, error := some "Missing deviceId" }
  else
    match getDevice db (msgDeviceId.getD "") with
    | none => { success := false, deviceId := none, error := some "Device not registered" }
    | some _ => { success := true, deviceId := msgDeviceId, error := none }

/-- The `authenticate` arm of the connection's message switch: the handler
runs in every session state; on success the closure records the device id
and sets `authenticated`; the connection is never closed on this path
(the returned flag is the closed-the-connection indicator). -/
def dispatchAuthenticate (db : DeviceDb) (s : Session) (msgDeviceId : Option String) :
    AuthResponse × Session × Bool :=
  let resp := handleAuthenticate db msgDeviceId
  (resp, if resp.success then { deviceId := msgDeviceId, authenticated := true } else s, false)

/-! ### The batch submitter (`submitBatchToBlockchain`) -/

/-- A value of type `α` still wrapped in a pending JavaScript promise (the
result of calling an async function without `await`). -/
structure JsPromise (α : Type) where
  resolvesTo : α
deriving DecidableEq, Repr

/-- Property access on a promise object: a promise has no `length`,
`sui_device_object_id`, … so any such read yields `undefined`. -/
def promiseProp (α β : Type) (p : JsPromise α) : Option β := none

/-- Iterating a promise with `for…of`: promises are not iterable, so the
loop raises a TypeError. -/
def promiseForOf (α : Type) (p : JsPromise (List α)) : Except String (List α) :=
  .error "pending is not iterable"

/-- One `suiClient.submitStepData` invocation as observed by the chain:
device object id, aggregated step count, and the per-record timestamps and
signatures in the order transmitted. -/
structure ChainCall where
  deviceObjectId : String
  stepCount : Int
  timestamps : List Int
  signatures : List DetachedSig
deriving DecidableEq, Repr

/-- One entry of the batch summary returned to the REST caller. -/
structure BatchResult where
  deviceId : String
  success : Bool
  totalSteps : Option Int
  recordCount : Option Nat
  txDigest : Option String
  error : Option String
deriving DecidableEq, Repr

/-- Overall outcome of one batch run: a thrown error or the summary list. -/
inductive BatchOutcome where
  | thrown (err : String)
  | completed (results : List BatchResult)
deriving DecidableEq, Repr

/-- First-occurrence deduplication, as `Object.keys` of an object populated
by first insertion wins (grouping `byDevice`). -/
def dedupFirstAux : List String → List String → List String
  | [], _ => []
  | x :: l, seen => if seen.contains x then dedupFirstAux l seen else x :: dedupFirstAux l (x :: seen)

/-- Keys of the `byDevice` grouping in first-occurrence order. -/
def dedupFirst (l : List String) : List String := dedupFirstAux l []

/-- The per-device loop of `submitBatchToBlockchain`, as the source would run
it on a materialized pending list.  For each device: look up the device —
again without `await`, so the promise object's `sui_device_object_id` reads
as `undefined` and every device is skipped with a warning — then (in the
unreachable arm) aggregate, call the chain, and mark on success; a per-device
catch records a failure entry and continues with the remaining devices. -/
def runBatchDevices (db : DeviceDb)
    (chainFn : String → Int → List Int → List DetachedSig → Except String String)
    (keys : List String) (pendingList : List StepRecord) :
    List BatchResult × DeviceDb × List ChainCall :=
  match keys with
  | [] => ([], db, [])
  | deviceId :: rest =>
    let dataList := pendingList.filter (fun r => r.device_id == deviceId)
    let device : JsPromise (Option Device) := ⟨getDevice db deviceId⟩
    match promiseProp (Option Device) String device with
    | none => runBatchDevices db chainFn rest pendingList
    | some objId =>
      let totalSteps := dataList.foldl (fun sum d => sum + d.step_count) 0
      let timestamps := dataList.map (fun d => d.timestamp)
      let signatures := dataList.map (fun d => d.signature)
      match chainFn objId totalSteps timestamps signatures with
      | .ok txDigest =>
        let db' := markAsSubmitted db (dataList.map (fun d => d.id)) txDigest
        let step := runBatchDevices db' chainFn rest pendingList
        ({ deviceId := deviceId, success := true, totalSteps := some totalSteps,
           recordCount := some dataList.length, txDigest := some txDigest,
           error := none } :: step.1, step.2.1, ⟨objId, totalSteps, timestamps, signatures⟩ :: step.2.2)
      | .error e =>
        let step := runBatchDevices db chainFn rest pendingList
        ({ deviceId := deviceId, success := false, totalSteps := none,
           recordCount := none, txDigest := none, error := some e } :: step.1,
         step.2.1, ⟨objId, totalSteps, timestamps, signatures⟩ :: step.2.2)

/-- `submitBatchToBlockchain`, embedded with its actual control flow.  The
source reads `const pending = deviceManager.getPendingStepData();` without
`await`, so `pending` is a pending promise: `pending.length === 0` compares
`undefined === 0` (false, so the early return does not fire) and
`for (const data of pending)` raises a TypeError which the surrounding
try/catch logs and rethrows.  The returned triple is (outcome, store after
the run, chain calls made during the run). -/
def submitBatchToBlockchain (db : DeviceDb)
    (chainFn : String → Int → List Int → List DetachedSig → Except String String) :
    BatchOutcome × DeviceDb × List ChainCall :=
  let pending : JsPromise (List StepRecord) := ⟨getPendingStepData db none⟩
  if promiseProp (List StepRecord) Int pending == some 0 then
    (.completed [], db, [])
  else
    match promiseForOf StepRecord pending with
    | .error e => (.thrown e, db, [])
    | .ok pendingList =>
      let keys := dedupFirst (pendingList.map (fun r => r.device_id))
      let run := runBatchDevices db chainFn keys pendingList
      (.completed run.1, run.2.1, run.2.2)

/-! ### The pet store (`petManager.mjs`) -/

/-- Row of the `pets` table (timestamps in epoch milliseconds; audit-only
columns such as the event log are omitted). -/
structure Pet where
  pet_id : String
  device_id : String
  pet_name : String
  level : Int
  experience : Int
  total_steps_fed : Int
  happiness : Int
  hunger : Int
  health : Int
  food : Int
  energy : Int
  last_fed_at : Int
  last_played_at : Int
  pet_object_id : Option String
  on_chain : Bool
deriving DecidableEq, Repr

/-- Column defaults of a freshly inserted pet row (`getOrCreatePet`). -/
def defaultPet (deviceId petId name : String) (now : Int) : Pet :=
  { pet_id := petId, device_id := deviceId, pet_name := name,
    level := 0, experience := 0, total_steps_fed := 0,
    happiness := 50, hunger := 50, health := 100,
    food := 5, energy := 5,
    last_fed_at := now, last_played_at := now,
    pet_object_id := none, on_chain := false }

/-- Argument record of `updatePetStats` (all columns the UPDATE sets). -/
structure PetStats where
  happiness : Int
  hunger : Int
  health : Int
  experience : Int
  total_steps_fed : Int
  level : Int
  food : Int
  energy : Int
deriving DecidableEq, Repr

/-- `PetManager.updatePetStats`: writes the given values into the row as-is —
the UPDATE applies no clamping or range check to any column. -/
def updatePetStats (p : Pet) (stats : PetStats) : Pet :=
  { p with
    happiness := stats.happiness, hunger := stats.hunger, health := stats.health,
    experience := stats.experience, total_steps_fed := stats.total_steps_fed,
    level := stats.level, food := stats.food, energy := stats.energy }

/-- `PetManager.addPetResources`: relative resource update. -/
def addPetResources (p : Pet) (foodToAdd energyToAdd : Int) : Pet :=
  { p with food := p.food + foodToAdd, energy := p.energy + energyToAdd }

/-- `PetManager.updatePetResources`: absolute resource update. -/
def updatePetResources (p : Pet) (food energy : Int) : Pet :=
  { p with food := food, energy := energy }

/-- `PetManager.feedPetLocal`: requires food, consumes one, raises hunger by
25 and happiness by 5 (both capped at 100), grants 10 experience, and
re-evaluates the level against the thresholds 100/500/2000/5000. -/
def feedPetLocal (p : Pet) (now : Int) : Except String Pet :=
  if p.food ≤ 0 then .error "No food available"
  else
    let newFood := p.food - 1
    let newHunger := min 100 (p.hunger + 25)
    let newHappiness := min 100 (p.happiness + 5)
    let newExperience := p.experience + 10
    let newLevel :=
      if newExperience ≥ 5000 && p.level < 4 then 4
      else if newExperience ≥ 2000 && p.level < 3 then 3
      else if newExperience ≥ 500 && p.level < 2 then 2
      else if newExperience ≥ 100 && p.level < 1 then 1
      else p.level
    .ok { p with
      food := newFood, hunger := newHunger, happiness := newHappiness,
      experience := newExperience, level := newLevel, last_fed_at := now }

/-- `PetManager.playWithPetLocal`: requires energy, consumes one, raises
happiness by 15 and health by 3 (both capped at 100), grants 5 experience. -/
def playWithPetLocal (p : Pet) (now : Int) : Except String Pet :=
  if p.energy ≤ 0 then .error "No energy available"
  else
    .ok { p with
      energy := p.energy - 1,
      happiness := min 100 (p.happiness + 15),
      health := min 100 (p.health + 3),
      experience := p.experience + 5, last_played_at := now }

/-- `PetManager.updateTimeBasedStats`: hunger decays one point per whole hour
since last fed, happiness one point per whole two hours since last played
(both floored at 0); health loses a point when either is below 20 and gains
one (capped at 100) when both are above 80. -/
def updateTimeBasedStats (p : Pet) (now : Int) : Pet :=
  let timeSinceFed := now - p.last_fed_at
  let timeSincePlayed := now - p.last_played_at
  let newHunger :=
    if timeSinceFed > 3600000 then max 0 (p.hunger - timeSinceFed / 3600000) else p.hunger
  let newHappiness :=
    if timeSincePlayed > 7200000 then max 0 (p.happiness - timeSincePlayed / 7200000)
    else p.happiness
  let newHealth :=
    if newHunger < 20 || newHappiness < 20 then max 0 (p.health - 1)
    else if newHunger > 80 && newHappiness > 80 then min 100 (p.health + 1)
    else p.health
  { p with hunger := newHunger, happiness := newHappiness, health := newHealth }

/-! ### A parser for the canonical payload form (used to prove that the
canonical serialization is injective: mutating any field changes the bytes) -/

/-- Decimal digit recognizer. -/
def isDigitChar (c : Char) : Bool := 48 ≤ c.toNat && c.toNat ≤ 57

/-- Value of a decimal digit character. -/
def digitVal (c : Char) : Nat := c.toNat - 48

/-- Split a maximal leading run of decimal digits off a character list. -/
def readDigits : List Char → List Char × List Char
  | [] => ([], [])
  | c :: l =>
    if isDigitChar c then
      let r := readDigits l
      (c :: r.1, r.2)
    else ([], c :: l)

/-- Decimal value of a digit run (most significant first). -/
def decNatChars (l : List Char) : Nat := l.foldl (fun a c => 10 * a + digitVal c) 0

/-- Parse one (possibly negative) decimal integer. -/
def decInt : List Char → Option (Int × List Char)
  | [] => none
  | c :: l =>
    if c = '-' then
      match readDigits l with
      | ([], _) => none
      | (ds, rest) => some (-(decNatChars ds : Int), rest)
    else
      match readDigits (c :: l) with
      | ([], _) => none
      | (ds, rest) => some ((decNatChars ds : Int), rest)

/-- Value of a lower-case hexadecimal digit character. -/
def hexVal (c : Char) : Nat :=
  if c = '0' then 0 else if c = '1' then 1 else if c = '2' then 2
  else if c = '3' then 3 else if c = '4' then 4 else if c = '5' then 5
  else if c = '6' then 6 else if c = '7' then 7 else if c = '8' then 8
  else if c = '9' then 9 else if c = 'a' then 10 else if c = 'b' then 11
  else if c = 'c' then 12 else if c = 'd' then 13 else if c = 'e' then 14 else 15

/-- Un-escape one two-character JSON escape. -/
def unescapeChar (e : Char) : Option Char :=
  if e = '"' then some '"'
  else if e = '\\' then some '\\'
  else if e = 'b' then some '\x08'
  else if e = 'f' then some '\x0c'
  else if e = 'n' then some '\n'
  else if e = 'r' then some '\r'
  else if e = 't' then some '\t'
  else none

/-- Parse a JSON string body up to and including its closing quote (the fuel
bounds the number of decoded characters; callers pass the input length). -/
def decStrBody (fuel : Nat) (l : List Char) : Option (List Char × List Char) :=
  match fuel with
  | 0 => none
  | fuel + 1 =>
    match l with
    | [] => none
    | c :: l =>
      if c = '"' then some ([], l)
      else if c = '\\' then
        match l with
        | 'u' :: '0' :: '0' :: h1 :: h2 :: rest =>
          match decStrBody fuel rest with
          | some (s, r) => some (Char.ofNat (16 * hexVal h1 + hexVal h2) :: s, r)
          | none => none
        | e :: rest =>
          match unescapeChar e with
          | some u =>
            match decStrBody fuel rest with
            | some (s, r) => some (u :: s, r)
            | none => none
          | none => none
        | [] => none
      else
        match decStrBody fuel l with
        | some (s, r) => some (c :: s, r)
        | none => none

/-- Parse the comma-separated elements of a nonempty integer array, up to and
including the closing bracket. -/
def decIntElems (fuel : Nat) (l : List Char) : Option (List Int × List Char) :=
  match fuel with
  | 0 => none
  | fuel + 1 =>
    match decInt l with
    | none => none
    | some (i, rest) =>
      match rest with
      | ',' :: rest₂ =>
        match decIntElems fuel rest₂ with
        | some (xs, r) => some (i :: xs, r)
        | none => none
      | ']' :: rest₂ => some ([i], rest₂)
      | _ => none

/-- Parse one bracketed integer array. -/
def decIntList (fuel : Nat) (l : List Char) : Option (List Int × List Char) :=
  match l with
  | [] => none
  | x :: rest =>
    if x = '[' then
      match rest with
      | [] => none
      | y :: rest₂ => if y = ']' then some ([], rest₂) else decIntElems fuel rest
    else none

/-- Parse the comma-separated rows of a nonempty array of integer arrays, up
to and including the closing bracket. -/
def decSampleRows (fuel : Nat) (l : List Char) : Option (List (List Int) × List Char) :=
  match fuel with
  | 0 => none
  | fuel + 1 =>
    match decIntList l.length l with
    | none => none
    | some (row, rest) =>
      match rest with
      | ',' :: rest₂ =>
        match decSampleRows fuel rest₂ with
        | some (xs, r) => some (row :: xs, r)
        | none => none
      | ']' :: rest₂ => some ([row], rest₂)
      | _ => none

/-- Parse one bracketed array of integer arrays. -/
def decSamples (fuel : Nat) (l : List Char) : Option (List (List Int) × List Char) :=
  match l with
  | [] => none
  | x :: rest =>
    if x = '[' then
      match rest with
      | [] => none
      | y :: rest₂ => if y = ']' then some ([], rest₂) else decSampleRows fuel rest
    else none

/-- Consume an expected literal prefix. -/
def expectLit : List Char → List Char → Option (List Char)
  | [], l => some l
  | c :: cs, x :: l => if x = c then expectLit cs l else none
  | _ :: _, [] => none

/-- Parse the canonical payload JSON
`{"batteryPercent":_,"deviceId":"_","firmwareVersion":_,"rawAccSamples":_,"stepCount":_,"timestamp":_}`
back into a `Payload`. -/
def parsePayloadChars (l : List Char) : Option Payload :=
  match expectLit ("\x7b\"batteryPercent\":".data) l with
  | none => none
  | some l₁ =>
    match decInt l₁ with
    | none => none
    | some (bat, l₂) =>
      match expectLit (",\"deviceId\":\"".data) l₂ with
      | none => none
      | some l₃ =>
        match decStrBody l₃.length l₃ with
        | none => none
        | some (dev, l₄) =>
          match expectLit (",\"firmwareVersion\":".data) l₄ with
          | none => none
          | some l₅ =>
            match decInt l₅ with
            | none => none
            | some (fw, l₆) =>
              match expectLit (",\"rawAccSamples\":".data) l₆ with
              | none => none
              | some l₇ =>
                match decSamples l₇.length l₇ with
                | none => none
                | some (samples, l₈) =>
                  match expectLit (",\"stepCount\":".data) l₈ with
                  | none => none
                  | some l₉ =>
                    match decInt l₉ with
                    | none => none
                    | some (sc, l₁₀) =>
                      match expectLit (",\"timestamp\":".data) l₁₀ with
                      | none => none
                      | some l₁₁ =>
                        match decInt l₁₁ with
                        | none => none
                        | some (ts, l₁₂) =>
                          match l₁₂ with
                          | ['\x7d'] => some ⟨⟨dev⟩, sc, ts, fw, bat, samples⟩
                          | _ => none

/-! ### Concrete fixtures used by witnesses and counterexamples -/

/-- Receive-time order on submission rows. -/
def recLe (a b : StepRecord) : Prop := a.received_at ≤ b.received_at

/-- A registered device with the ideal key pair `7`. -/
def devW : Device :=
  { device_id := "d1", public_key := 7, registered_at := 0, last_seen := 0,
    total_steps := 0, total_submissions := 0, status := "active",
    sui_device_object_id := none }

/-- A store holding exactly `devW` and no submissions. -/
def dbW : DeviceDb := { devices := [devW], steps := [], nextStepId := 1 }

/-- A fixed current time (epoch milliseconds). -/
def nowW : Int := 1000000000000

/-- A well-formed payload for `devW`, timestamped one minute before `nowW`. -/
def payloadW : Payload :=
  { deviceId := "d1", stepCount := 100, timestamp := 999999940000,
    firmwareVersion := 100, batteryPercent := 85, rawAccSamples := [[1, 2, 3]] }

/-- The wire message carrying `payloadW`, signed by `devW`'s key (the message
omits `firmwareVersion`, so the handler defaults it to 100 when rebuilding
the payload). -/
def msgW : StepDataMsg :=
  { deviceId := some "d1", stepCount := some 100, timestamp := some 999999940000,
    batteryPercent := some 85, rawAccSamples := some [[1, 2, 3]], firmwareVersion := none,
    signature := some (signData payloadW 7) }

/-- A stored, verified, unsubmitted record for `devW`. -/
def recW : StepRecord :=
  { id := 1, device_id := "d1", step_count := 100, timestamp := 999999940000,
    raw_samples := "[[1,2,3]]", battery_percent := 85, signature := nullSig,
    verified := true, received_at := 5, submitted_to_chain := false, tx_digest := none }

/-- A store with one pending record. -/
def dbPendW : DeviceDb := { devices := [devW], steps := [recW], nextStepId := 2 }

/-- `msgW` with an ancient timestamp (epoch millisecond 1). -/
def msgOldW : StepDataMsg := { msgW with timestamp := some 1 }

/-- A pet row at its creation defaults. -/
def petW : Pet := defaultPet "d1" "pet_d1_1" "Tamagotchi" 0

/-- An `updatePet` stats argument carrying an out-of-range happiness. -/
def statsOutOfRangeW : PetStats :=
  { happiness := 150, hunger := 50, health := 50, experience := 0,
    total_steps_fed := 0, level := 0, food := 5, energy := 5 }

/-- `payloadW` with a mutated step count (used to show verification fails on
any altered payload). -/
def payloadMutW : Payload := { payloadW with stepCount := 101 }

/-- `payloadW` with battery percent `0` (a canonical form the server can never
rebuild, since `batteryPercent || 100` turns `0` into `100`). -/
def payloadBat0W : Payload := { payloadW with batteryPercent := 0 }

/-- `msgW` with battery percent `0` on the wire. -/
def msgBat0W : StepDataMsg := { msgW with batteryPercent := some 0 }

/-! ### Lemmas: pending scan and submitted marking -/

theorem mem_orderedInsertRec {x a : StepRecord} {l : List StepRecord} :
    x ∈ orderedInsertRec a l ↔ x = a ∨ x ∈ l := by
  induction l with
  | nil => simp [orderedInsertRec]
  | cons b t ih =>
    simp only [orderedInsertRec]
    split
    · simp
    · simp only [List.mem_cons, ih]
      tauto

theorem orderedInsertRec_perm (a : StepRecord) (l : List StepRecord) :
    (orderedInsertRec a l).Perm (a :: l) := by
  induction l with
  | nil => exact List.Perm.refl _
  | cons b t ih =>
    simp only [orderedInsertRec]
    split
    · exact List.Perm.refl _
    · exact (ih.cons b).trans (List.Perm.swap a b t)

theorem sortByReceivedAt_perm (l : List StepRecord) :
    (sortByReceivedAt l).Perm l := by
  induction l with
  | nil => exact List.Perm.refl _
  | cons a t ih =>
    exact (orderedInsertRec_perm a (sortByReceivedAt t)).trans (ih.cons a)

theorem pairwise_orderedInsertRec {a : StepRecord} {l : List StepRecord}
    (h : l.Pairwise recLe) : (orderedInsertRec a l).Pairwise recLe := by
  induction l with
  | nil => simp [orderedInsertRec, List.Pairwise]
  | cons b t ih =>
    simp only [orderedInsertRec]
    rcases List.pairwise_cons.mp h with ⟨hb, ht⟩
    split
    · rename_i hab
      refine List.pairwise_cons.mpr ⟨?_, h⟩
      intro x hx
      rcases List.mem_cons.mp hx with rfl | hx
      · exact hab
      · exact le_trans hab (hb x hx)
    · rename_i hab
      refine List.pairwise_cons.mpr ⟨?_, ih ht⟩
      intro x hx
      rcases mem_orderedInsertRec.mp hx with rfl | hx
      · exact le_of_not_le hab
      · exact hb x hx

theorem pairwise_sortByReceivedAt (l : List StepRecord) :
    (sortByReceivedAt l).Pairwise recLe := by
  induction l with
  | nil => simp [sortByReceivedAt, List.Pairwise]
  | cons a t ih => exact pairwise_orderedInsertRec ih

theorem mem_sortByReceivedAt {x : StepRecord} {l : List StepRecord} :
    x ∈ sortByReceivedAt l ↔ x ∈ l :=
  (sortByReceivedAt_perm l).mem_iff

/-- Every row of the store after `markAsSubmitted` is the image of an
original row; rows whose id was listed carry `submitted_to_chain = true`. -/
theorem mem_markAsSubmitted_steps {db : DeviceDb} {ids : List Nat} {tx : String}
    {r : StepRecord} (hr : r ∈ (markAsSubmitted db ids tx).steps)
    (hid : r.id ∈ ids) : r.submitted_to_chain = true := by
  simp only [markAsSubmitted, List.mem_map] at hr
  rcases hr with ⟨r₀, -, rfl⟩
  by_cases hc : r₀.id ∈ ids
  · simp [hc]
  · simp only [if_neg hc] at hid
    exact absurd hid hc

/-- C3: after `markAsSubmitted(ids, h)` commits, a later pending scan returns
no listed id, under any device filter; and the pending scan returns exactly
the rows with `verified = true` and `submitted_to_chain = false` (a
permutation of that filter of the table), ordered by receive time ascending. -/
theorem claim_C3 (db : DeviceDb) (ids : List Nat) (h : String) (did : Option String) :
    (∀ r ∈ getPendingStepData (markAsSubmitted db ids h) did, r.id ∉ ids)
      ∧ (getPendingStepData db did).Perm (db.steps.filter (pendingPred did))
      ∧ (getPendingStepData db did).Pairwise recLe := by
  refine ⟨?_, sortByReceivedAt_perm _, pairwise_sortByReceivedAt _⟩
  intro r hr hid
  have hr' : r ∈ (markAsSubmitted db ids h).steps.filter (pendingPred did) :=
    mem_sortByReceivedAt.mp hr
  have hmem := (List.mem_filter.mp hr').1
  have hpred := (List.mem_filter.mp hr').2
  have hsub : r.submitted_to_chain = true := mem_markAsSubmitted_steps hmem hid
  simp [pendingPred, hsub] at hpred

/-- Witness for C3 at a concrete store: the single pending record disappears
from the scan once marked, and before marking the scan returns it. -/
theorem claim_C3_witness :
    (∀ r ∈ getPendingStepData (markAsSubmitted dbPendW [1] "0xtx") none, r.id ∉ [1])
      ∧ getPendingStepData dbPendW none = [recW]
      ∧ getPendingStepData (markAsSubmitted dbPendW [1] "0xtx") none = [] :=
  ⟨(claim_C3 dbPendW [1] "0xtx" none).1, by decide, by decide⟩

/-! ### Lemmas: registration -/

theorem find?_deviceId_map {f : Device → Device} (hf : ∀ d, (f d).device_id = d.device_id)
    (l : List Device) (id : String) :
    (l.map f).find? (fun x => x.device_id == id) = (l.find? (fun x => x.device_id == id)).map f := by
  induction l with
  | nil => rfl
  | cons a t ih =>
    simp only [List.map_cons, List.find?]
    rw [hf a]
    cases ha : (a.device_id == id)
    · simpa [ha] using ih
    · simp [ha]

/-- C5 counterexample: with `d1` bound to public key `7`, registering a
different device id `d2` with the same key is not rejected — the handler
replies `success: true` carrying no device record at all. -/
theorem claim_C5_cex :
    (handleRegister dbW (some "d2") (some 7) 5).1
      = { success := true, device := none, error := none } := by decide

/-- C5 amended: re-registration of an existing device id updates `last_seen`
and returns the otherwise unchanged record; but when a different device id is
already bound to the same public key, the registration is not rejected: the
store is left unchanged, no device is returned, and the handler still replies
`success: true` with no device record. -/
theorem claim_C5 (db : DeviceDb) (id : String) (pk : Nat) (now : Int) :
    (∀ d, getDevice db id = some d →
        (registerDevice db id pk now).1 = some { d with last_seen := now })
      ∧ (id ≠ "" → getDevice db id = none → (∃ d ∈ db.devices, d.public_key = pk) →
        registerDevice db id pk now = (none, db)
          ∧ (handleRegister db (some id) (some pk) now).1
              = { success := true, device := none, error := none }) := by
  constructor
  · intro d hd
    simp only [getDevice] at hd
    have hmem : d ∈ db.devices := List.mem_of_find?_eq_some hd
    have hpd : d.device_id = id := by simpa using List.find?_some hd
    have hany : db.devices.any (fun x => x.device_id == id) = true :=
      List.any_eq_true.mpr ⟨d, hmem, by simp [hpd]⟩
    simp only [registerDevice, hany, Bool.true_or, if_true]
    simp only [getDevice]
    rw [find?_deviceId_map (fun x => by by_cases hx : (x.device_id == id) = true <;> simp [hx]), hd]
    simp [hpd]
  · intro hid hnone hpk
    have hne : ∀ x ∈ db.devices, ¬ ((x.device_id == id) = true) := by
      simpa only [getDevice, List.find?_eq_none] using hnone
    have hmapid : db.devices.map
        (fun d => if d.device_id == id then { d with last_seen := now } else d) = db.devices := by
      have h1 : db.devices.map
          (fun d => if d.device_id == id then { d with last_seen := now } else d)
            = db.devices.map (fun d => d) :=
        List.map_congr_left (fun d hd => if_neg (hne d hd))
      exact h1.trans (List.map_id' db.devices)
    rcases hpk with ⟨d, hdmem, hdpk⟩
    have hany2 : db.devices.any (fun x => x.public_key == pk) = true :=
      List.any_eq_true.mpr ⟨d, hdmem, by simp [hdpk]⟩
    have hreg : registerDevice db id pk now = (none, db) := by
      simp only [registerDevice, hany2, Bool.or_true, if_true, hmapid]
      have hdb : ({ devices := db.devices, steps := db.steps, nextStepId := db.nextStepId }
          : DeviceDb) = db := rfl
      rw [hdb, hnone]
    refine ⟨hreg, ?_⟩
    simp [handleRegister, jsTruthyStr, hid, hreg]

/-- Witness for C5 at a concrete store: re-registering `d1` returns its
record with `last_seen` refreshed; registering `d2` with `d1`'s key returns
no device and leaves the store unchanged. -/
theorem claim_C5_witness :
    (registerDevice dbW "d1" 9 5).1 = some { devW with last_seen := 5 }
      ∧ registerDevice dbW "d2" 7 5 = (none, dbW) :=
  ⟨(claim_C5 dbW "d1" 9 5).1 devW (by decide),
   (((claim_C5 dbW "d2" 7 5).2 (by decide) (by decide) ⟨devW, by decide, by decide⟩)).1⟩

/-- C8 counterexample: on a fresh connection (state Connected, no prior
register on the connection) an `authenticate` for a store-registered device
is accepted, the session becomes authenticated, and the connection stays
open — the message is not rejected due to session state. -/
theorem claim_C8_cex :
    dispatchAuthenticate dbW freshSession (some "d1")
      = ({ success := true, deviceId := some "d1", error := none },
         { deviceId := some "d1", authenticated := true }, false) := by decide

/-- C8 amended: the `authenticate` arm runs in every session state, including
Connected; it succeeds exactly when the device id is present and registered
in the store (and then marks the session authenticated), fails with an
`auth_response` error frame otherwise, and never closes the connection. -/
theorem claim_C8 (db : DeviceDb) (s : Session) (mid : Option String) :
    (dispatchAuthenticate db s mid).2.2 = false
      ∧ (∀ d, jsTruthyStr mid = true → getDevice db (mid.getD "") = some d →
          (dispatchAuthenticate db s mid).1.success = true
            ∧ (dispatchAuthenticate db s mid).2.1 = { deviceId := mid, authenticated := true })
      ∧ (jsTruthyStr mid = true → getDevice db (mid.getD "") = none →
          (dispatchAuthenticate db s mid).1
              = { success := false, deviceId := none, error := some "Device not registered" }
            ∧ (dispatchAuthenticate db s mid).2.1 = s) := by
  refine ⟨rfl, ?_, ?_⟩
  · intro d htr hd
    simp [dispatchAuthenticate, handleAuthenticate, htr, hd]
  · intro htr hd
    simp [dispatchAuthenticate, handleAuthenticate, htr, hd]

/-- Witness for C8: concrete success on a registered id from the Connected
state, concrete state-preserving failure on an unknown id. -/
theorem claim_C8_witness :
    ((dispatchAuthenticate dbW freshSession (some "d1")).1.success = true
        ∧ (dispatchAuthenticate dbW freshSession (some "d1")).2.1
            = { deviceId := some "d1", authenticated := true })
      ∧ (dispatchAuthenticate dbW freshSession (some "nope")).1
          = { success := false, deviceId := none, error := some "Device not registered" } :=
  ⟨(claim_C8 dbW freshSession (some "d1")).2.1 devW (by decide) (by decide),
   (((claim_C8 dbW freshSession (some "nope")).2.2 (by decide) (by decide))).1⟩

/-! ### Lemmas: payload validation and the temporal window -/

theorem isEmpty_false_of_mem {α : Type} {l : List α} {x : α} (h : x ∈ l) :
    l.isEmpty = false := by
  cases l
  · cases h
  · rfl

theorem validatePayload_fst (now : Int) (vin : ValidationInput) :
    (validatePayload now vin).1 = (validatePayload now vin).2.isEmpty := rfl

theorem validate_mem_old {now ts : Int} (vin : ValidationInput)
    (hts : vin.timestamp = some ts) (h0 : ts ≠ 0)
    (hold : ts < now - 7 * 24 * 60 * 60 * 1000) :
    "Timestamp is too old (max 7 days)" ∈ (validatePayload now vin).2 := by
  have htr : jsTruthyInt (some ts) = true := by simp [jsTruthyInt, h0]
  have hold' : ts < now - 604800000 := by omega
  simp [validatePayload, hts, htr, hold']

theorem validate_mem_future {now ts : Int} (vin : ValidationInput)
    (hts : vin.timestamp = some ts) (h0 : ts ≠ 0)
    (hfut : ts > now + 5 * 60 * 1000) :
    "Timestamp is too far in the future" ∈ (validatePayload now vin).2 := by
  have htr : jsTruthyInt (some ts) = true := by simp [jsTruthyInt, h0]
  have hfut' : ts > now + 300000 := by omega
  simp [validatePayload, hts, htr, hfut']

theorem validate_mem_missing {now : Int} (vin : ValidationInput)
    (hts : vin.timestamp = some 0) :
    "Missing or invalid timestamp" ∈ (validatePayload now vin).2 := by
  simp [validatePayload, hts, jsTruthyInt]

theorem validate_fails_ts {now ts : Int} (vin : ValidationInput)
    (hts : vin.timestamp = some ts)
    (hout : ts < now - 7 * 24 * 60 * 60 * 1000 ∨ ts > now + 5 * 60 * 1000) :
    (validatePayload now vin).1 = false := by
  rw [validatePayload_fst]
  by_cases h0 : ts = 0
  · exact isEmpty_false_of_mem (validate_mem_missing vin (h0 ▸ hts))
  · rcases hout with hold | hfut
    · exact isEmpty_false_of_mem (validate_mem_old vin hts h0 hold)
    · exact isEmpty_false_of_mem (validate_mem_future vin hts h0 hfut)

theorem validate_not_mem_inside {now ts : Int} (vin : ValidationInput)
    (hts : vin.timestamp = some ts)
    (hlo : now - 7 * 24 * 60 * 60 * 1000 ≤ ts) (hhi : ts ≤ now + 5 * 60 * 1000) :
    "Timestamp is too old (max 7 days)" ∉ (validatePayload now vin).2
      ∧ "Timestamp is too far in the future" ∉ (validatePayload now vin).2 := by
  have h1 : ¬ (ts < now - 604800000) := by omega
  have h2 : ¬ (ts > now + 300000) := by omega
  constructor
  · intro hmem
    simp [validatePayload, hts, jsTruthyInt] at hmem
    omega
  · intro hmem
    simp [validatePayload, hts, jsTruthyInt] at hmem
    omega

/-- In every branch of the handler that precedes a failed validation (and in
the validation-failure branch itself) the reply is a failure and the store is
untouched. -/
theorem handleStepData_invalid {db : DeviceDb} {msg : StepDataMsg} {authId : String} {now : Int}
    (hval : (validatePayload now (serverValidationInput msg)).1 = false) :
    (handleStepData db msg authId now).1.success = false
      ∧ (handleStepData db msg authId now).2 = db := by
  unfold handleStepData
  split
  · exact ⟨rfl, rfl⟩
  · split
    · exact ⟨rfl, rfl⟩
    · simp [hval]

/-- C9: a timestamp older than 7 days or more than 5 minutes in the future
fails payload validation with a timestamp error (the temporal error string
when the timestamp is a nonzero number, the missing-field string when it is
0) and the handler stores nothing; a timestamp inside the window passes the
temporal check (neither temporal error is produced). -/
theorem claim_C9 (db : DeviceDb) (msg : StepDataMsg) (authId : String) (now ts : Int)
    (hts : msg.timestamp = some ts) :
    ((ts < now - 7 * 24 * 60 * 60 * 1000 ∨ ts > now + 5 * 60 * 1000) →
        (handleStepData db msg authId now).1.success = false
          ∧ (handleStepData db msg authId now).2 = db
          ∧ (∃ e ∈ (validatePayload now (serverValidationInput msg)).2,
              e = "Timestamp is too old (max 7 days)"
                ∨ e = "Timestamp is too far in the future"
                ∨ e = "Missing or invalid timestamp"))
      ∧ (now - 7 * 24 * 60 * 60 * 1000 ≤ ts → ts ≤ now + 5 * 60 * 1000 →
          "Timestamp is too old (max 7 days)" ∉ (validatePayload now (serverValidationInput msg)).2
            ∧ "Timestamp is too far in the future"
                ∉ (validatePayload now (serverValidationInput msg)).2) := by
  have hts' : (serverValidationInput msg).timestamp = some ts := hts
  constructor
  · intro hout
    have hval := validate_fails_ts (serverValidationInput msg) hts' hout
    have hh := @handleStepData_invalid db msg authId now hval
    refine ⟨hh.1, hh.2, ?_⟩
    by_cases h0 : ts = 0
    · exact ⟨_, validate_mem_missing _ (h0 ▸ hts'), Or.inr (Or.inr rfl)⟩
    · rcases hout with hold | hfut
      · exact ⟨_, validate_mem_old _ hts' h0 hold, Or.inl rfl⟩
      · exact ⟨_, validate_mem_future _ hts' h0 hfut, Or.inr (Or.inl rfl)⟩
  · intro hlo hhi
    exact validate_not_mem_inside _ hts' hlo hhi

/-- Witness for C9: a submission dated at epoch millisecond 1 is rejected
without touching the store, and `msgW`'s one-minute-old timestamp passes the
temporal check. -/
theorem claim_C9_witness :
    ((handleStepData dbW msgOldW "d1" nowW).1.success = false
        ∧ (handleStepData dbW msgOldW "d1" nowW).2 = dbW
        ∧ (∃ e ∈ (validatePayload nowW (serverValidationInput msgOldW)).2,
            e = "Timestamp is too old (max 7 days)"
              ∨ e = "Timestamp is too far in the future"
              ∨ e = "Missing or invalid timestamp"))
      ∧ ("Timestamp is too old (max 7 days)"
            ∉ (validatePayload nowW (serverValidationInput msgW)).2
          ∧ "Timestamp is too far in the future"
              ∉ (validatePayload nowW (serverValidationInput msgW)).2) :=
  ⟨(claim_C9 dbW msgOldW "d1" nowW 1 rfl).1 (Or.inl (by decide)),
   (claim_C9 dbW msgW "d1" nowW 999999940000 rfl).2 (by decide) (by decide)⟩

/-- C4: the claim says every pet-stat write clamps into 0…100, but
`updatePetStats` (the write behind the `updatePet` message) persists its
arguments unclamped: happiness 150 is stored as 150, outside the 0…100 range
the schema itself documents. -/
theorem claim_C4 :
    (updatePetStats petW statsOutOfRangeW).happiness = 150
      ∧ ¬ ((updatePetStats petW statsOutOfRangeW).happiness ≤ 100) := by decide

/-- C7: one run of the batch submitter makes no chain call at all: the
pending list is read without `await`, so the for‑of iteration over the
promise raises a TypeError, the catch rethrows it, nothing is marked and the
store is returned unchanged — for every store and every chain behavior. -/
theorem claim_C7 (db : DeviceDb)
    (chainFn : String → Int → List Int → List DetachedSig → Except String String) :
    submitBatchToBlockchain db chainFn = (.thrown "pending is not iterable", db, []) := rfl

/-! ### Lemmas: signature round-trip and duplicate submissions -/

/-- Signing a payload's canonical-JSON hash and verifying with the matching
key pair succeeds. -/
theorem verify_signData_self (p : Payload) (k : Nat) :
    verifySignature p (signData p k) k = true := by
  simp [verifySignature, signData, naclSignDetached, naclVerifyDetached]

/-- Device lookup after storing a submission: the devices table only has its
cumulative counters and `last_seen` refreshed on the owning row. -/
theorem getDevice_storeStepData (db : DeviceDb) (owner id : String) (sc ts : Int)
    (raw : Option (List (List Int))) (bat : Option Int) (sig : DetachedSig) (v : Bool)
    (now : Int) :
    getDevice (storeStepData db owner sc ts raw bat sig v now) id
      = (getDevice db id).map (fun d =>
          if d.device_id == owner then
            { d with total_steps := d.total_steps + sc, last_seen := now }
          else d) := by
  simp only [storeStepData, getDevice]
  exact find?_deviceId_map
    (fun d => by by_cases h : (d.device_id == owner) = true <;> simp [h]) _ _

/-- A fully well-formed submission (id match, registered device, valid
payload, signature over the hash of the handler's canonical payload under the
device's key, falsy firmware field) is accepted and appended to the store. -/
theorem handleStepData_success {db : DeviceDb} {msg : StepDataMsg} {authId : String}
    {now : Int} {d : Device}
    (hdev : msg.deviceId = some authId)
    (hd : getDevice db authId = some d)
    (hval : (validatePayload now (serverValidationInput msg)).1 = true)
    (hsig : msg.signature = some (signData (serverPayload msg) d.public_key))
    (hfw : jsTruthyInt msg.firmwareVersion = false) :
    handleStepData db msg authId now
      = ({ success := true, error := none, stepCount := msg.stepCount, verified := true },
         storeStepData db authId (msg.stepCount.getD 0) (msg.timestamp.getD 0)
           msg.rawAccSamples msg.batteryPercent (signData (serverPayload msg) d.public_key)
           true now) := by
  simp [handleStepData, hdev, hd, hval, hsig, hfw, verify_signData_self]

/-- C2 counterexample: the very same signed submission sent twice succeeds
twice, and the store then holds two records with the same
(device id, device timestamp) pair — there is no duplicate rejection. -/
theorem claim_C2_cex :
    (handleStepData dbW msgW "d1" nowW).1.success = true
      ∧ (handleStepData (handleStepData dbW msgW "d1" nowW).2 msgW "d1" nowW).1.success = true
      ∧ ((handleStepData (handleStepData dbW msgW "d1" nowW).2 msgW "d1" nowW).2.steps.filter
            (fun r => r.device_id == "d1" && r.timestamp == 999999940000)).length = 2 := by
  decide

/-- C2 amended: the store enforces no (device id, device timestamp)
uniqueness — neither a schema constraint nor a handler check.  Any accepted
submission, submitted again unchanged, is accepted again, and the store then
holds two more records with that (device id, timestamp) pair than before. -/
theorem claim_C2 (db : DeviceDb) (msg : StepDataMsg) (authId : String) (now ts : Int)
    (d : Device)
    (hdev : msg.deviceId = some authId)
    (hd : getDevice db authId = some d)
    (hts : msg.timestamp = some ts)
    (hval : (validatePayload now (serverValidationInput msg)).1 = true)
    (hsig : msg.signature = some (signData (serverPayload msg) d.public_key))
    (hfw : jsTruthyInt msg.firmwareVersion = false) :
    (handleStepData db msg authId now).1.success = true
      ∧ (handleStepData (handleStepData db msg authId now).2 msg authId now).1.success = true
      ∧ ((handleStepData (handleStepData db msg authId now).2 msg authId now).2.steps.filter
            (fun r => r.device_id == authId && r.timestamp == ts)).length
          = (db.steps.filter (fun r => r.device_id == authId && r.timestamp == ts)).length
              + 2 := by
  have hda : d.device_id = authId := by
    simpa using List.find?_some hd
  have h1 := handleStepData_success hdev hd hval hsig hfw
  have hd2 : getDevice (handleStepData db msg authId now).2 authId
      = some { d with total_steps := d.total_steps + msg.stepCount.getD 0, last_seen := now } := by
    rw [h1, getDevice_storeStepData, hd]
    have hc : (d.device_id == authId) = true := by simp [hda]
    simp [hc, hda]
  have h2 := handleStepData_success hdev hd2 hval hsig hfw
  refine ⟨by rw [h1], by rw [h2], ?_⟩
  rw [h2, h1]
  simp only [storeStepData, List.filter_append, List.length_append]
  simp [hda, hts]

/-- Witness for C2 (amended) at the concrete fixture: both submissions of
`msgW` succeed and the pair count grows by two. -/
theorem claim_C2_witness :
    (handleStepData dbW msgW "d1" nowW).1.success = true
      ∧ (handleStepData (handleStepData dbW msgW "d1" nowW).2 msgW "d1" nowW).1.success = true
      ∧ ((handleStepData (handleStepData dbW msgW "d1" nowW).2 msgW "d1" nowW).2.steps.filter
            (fun r => r.device_id == "d1" && r.timestamp == 999999940000)).length
          = (dbW.steps.filter (fun r => r.device_id == "d1" && r.timestamp == 999999940000)).length
              + 2 :=
  claim_C2 dbW msgW "d1" nowW 999999940000 devW rfl (by decide) rfl (by decide) (by decide) rfl

/-! ### Lemmas: key sorting of the canonicalizer -/

theorem char_toNat_injective {a b : Char} (h : a.toNat = b.toNat) : a = b :=
  Char.eq_of_val_eq (UInt32.toNat.inj h)

theorem charListLe_total (a b : List Char) :
    charListLe a b = true ∨ charListLe b a = true := by
  induction a generalizing b with
  | nil => left; rfl
  | cons x xs ih =>
    cases b with
    | nil => right; rfl
    | cons y ys =>
      simp only [charListLe]
      rcases Nat.lt_trichotomy x.toNat y.toNat with h | h | h
      · left; simp [h]
      · have hne : ¬ x.toNat < y.toNat := by omega
        have hne' : ¬ y.toNat < x.toNat := by omega
        rcases ih ys with hy | hy
        · left; simp [hne, hne', hy]
        · right; simp [hne, hne', hy]
      · right; simp [h, Nat.lt_asymm h]

theorem charListLe_antisymm : ∀ {a b : List Char},
    charListLe a b = true → charListLe b a = true → a = b := by
  intro a
  induction a with
  | nil =>
    intro b _ hba
    cases b with
    | nil => rfl
    | cons y ys => simp [charListLe] at hba
  | cons x xs ih =>
    intro b hab hba
    cases b with
    | nil => simp [charListLe] at hab
    | cons y ys =>
      simp only [charListLe] at hab hba
      by_cases h1 : x.toNat < y.toNat
      · have h2 : ¬ y.toNat < x.toNat := by omega
        simp [h1, h2] at hba
      · by_cases h2 : y.toNat < x.toNat
        · simp [h1, h2] at hab
        · have hx : x = y := char_toNat_injective (by omega)
          simp only [h1, h2, if_false] at hab hba
          rw [hx, ih hab hba]

theorem keyLe_total (a b : String) : keyLe a b = true ∨ keyLe b a = true :=
  charListLe_total a.data b.data

theorem keyLe_antisymm {a b : String} (hab : keyLe a b = true) (hba : keyLe b a = true) :
    a = b := by
  cases a with
  | mk da =>
    cases b with
    | mk db =>
      have : da = db := charListLe_antisymm hab hba
      rw [this]

theorem charListLe_trans {a b c : List Char} (hab : charListLe a b = true)
    (hbc : charListLe b c = true) : charListLe a c = true := by
  induction a generalizing b c with
  | nil => rfl
  | cons x xs ih =>
    cases b with
    | nil => simp [charListLe] at hab
    | cons y ys =>
      cases c with
      | nil => simp [charListLe] at hbc
      | cons z zs =>
        simp only [charListLe] at hab hbc ⊢
        rcases Nat.lt_trichotomy x.toNat y.toNat with hxy | hxy | hxy
        · rcases Nat.lt_trichotomy y.toNat z.toNat with hyz | hyz | hyz
          · simp [show x.toNat < z.toNat from by omega]
          · simp [show x.toNat < z.toNat from by omega]
          · simp [show ¬ y.toNat < z.toNat from by omega, hyz] at hbc
        · have hn1 : ¬ x.toNat < y.toNat := by omega
          have hn2 : ¬ y.toNat < x.toNat := by omega
          simp only [hn1, hn2, if_false] at hab
          rcases Nat.lt_trichotomy y.toNat z.toNat with hyz | hyz | hyz
          · simp [show x.toNat < z.toNat from by omega]
          · have hm1 : ¬ y.toNat < z.toNat := by omega
            have hm2 : ¬ z.toNat < y.toNat := by omega
            simp only [hm1, hm2, if_false] at hbc
            simp [show ¬ x.toNat < z.toNat from by omega,
              show ¬ z.toNat < x.toNat from by omega, ih hab hbc]
          · simp [show ¬ y.toNat < z.toNat from by omega, hyz] at hbc
        · simp [show ¬ x.toNat < y.toNat from by omega, hxy] at hab

theorem mem_orderedInsertKV {x a : String × JValue} {l : List (String × JValue)} :
    x ∈ orderedInsertKV a l ↔ x = a ∨ x ∈ l := by
  induction l with
  | nil => simp [orderedInsertKV]
  | cons b t ih =>
    simp only [orderedInsertKV]
    split
    · simp
    · simp only [List.mem_cons, ih]
      tauto

theorem orderedInsertKV_perm (a : String × JValue) (l : List (String × JValue)) :
    (orderedInsertKV a l).Perm (a :: l) := by
  induction l with
  | nil => exact List.Perm.refl _
  | cons b t ih =>
    simp only [orderedInsertKV]
    split
    · exact List.Perm.refl _
    · exact (ih.cons b).trans (List.Perm.swap a b t)

theorem sortByKey_perm (l : List (String × JValue)) : (sortByKey l).Perm l := by
  induction l with
  | nil => exact List.Perm.refl _
  | cons a t ih => exact (orderedInsertKV_perm a (sortByKey t)).trans (ih.cons a)

/-- Pairwise key order of the members of a sorted object. -/
def kvLe (a b : String × JValue) : Prop := keyLe a.1 b.1 = true

theorem pairwise_orderedInsertKV {a : String × JValue} {l : List (String × JValue)}
    (h : l.Pairwise kvLe) : (orderedInsertKV a l).Pairwise kvLe := by
  induction l with
  | nil => simp [orderedInsertKV, List.Pairwise, kvLe]
  | cons b t ih =>
    simp only [orderedInsertKV]
    rcases List.pairwise_cons.mp h with ⟨hb, ht⟩
    split
    · rename_i hab
      refine List.pairwise_cons.mpr ⟨?_, h⟩
      intro x hx
      rcases List.mem_cons.mp hx with rfl | hx
      · exact hab
      · exact charListLe_trans hab (hb x hx)
    · rename_i hab
      refine List.pairwise_cons.mpr ⟨?_, ih ht⟩
      intro x hx
      rcases mem_orderedInsertKV.mp hx with rfl | hx
      · rcases keyLe_total x.1 b.1 with h' | h'
        · exact absurd h' hab
        · exact h'
      · exact hb x hx

theorem pairwise_sortByKey (l : List (String × JValue)) : (sortByKey l).Pairwise kvLe := by
  induction l with
  | nil => simp [sortByKey, List.Pairwise]
  | cons a t ih => exact pairwise_orderedInsertKV ih

/-- Two sorted objects that are permutations of each other and have distinct
keys are identical member-for-member. -/
theorem perm_sorted_keys_unique : ∀ {l₁ l₂ : List (String × JValue)},
    l₁.Perm l₂ → l₁.Pairwise kvLe → l₂.Pairwise kvLe → (l₁.map Prod.fst).Nodup →
    l₁ = l₂ := by
  intro l₁
  induction l₁ with
  | nil =>
    intro l₂ hp _ _ _
    exact hp.nil_eq
  | cons a t ih =>
    intro l₂ hp hs₁ hs₂ hnd
    have ha₂ : a ∈ l₂ := hp.mem_iff.mp (List.mem_cons_self a t)
    cases l₂ with
    | nil =>
      have h := hp.symm.nil_eq
      simp at h
    | cons b t₂ =>
      rw [List.map_cons] at hnd
      have hab : a = b := by
        by_contra hne
        have hat₂ : a ∈ t₂ := by
          rcases List.mem_cons.mp ha₂ with h | h
          · exact absurd h hne
          · exact h
        have hbt : b ∈ t := by
          have hb₁ : b ∈ a :: t := hp.mem_iff.mpr (List.mem_cons_self b t₂)
          rcases List.mem_cons.mp hb₁ with h | h
          · exact absurd h.symm hne
          · exact h
        have h₁ : kvLe a b := (List.pairwise_cons.mp hs₁).1 b hbt
        have h₂ : kvLe b a := (List.pairwise_cons.mp hs₂).1 a hat₂
        have hkey : a.1 = b.1 := keyLe_antisymm h₁ h₂
        have hdup : a.1 ∈ t.map Prod.fst := List.mem_map.mpr ⟨b, hbt, hkey.symm⟩
        exact (List.nodup_cons.mp hnd).1 hdup
      subst hab
      have ht₂ : t.Perm t₂ := hp.cons_inv
      have heq := ih ht₂ (List.pairwise_cons.mp hs₁).2 (List.pairwise_cons.mp hs₂).2
        (List.nodup_cons.mp hnd).2
      rw [heq]

/-- C6: with distinct keys, the canonicalizer's output does not depend on the
insertion order of the input object — any permutation produces byte-identical
output (and the function is deterministic, being pure) — and the emitted
members are in ascending lexicographic key order. -/
theorem claim_C6 (X X' : List (String × JValue)) (hnd : (X.map Prod.fst).Nodup)
    (hperm : X.Perm X') :
    buildCanonicalJSON X = buildCanonicalJSON X'
      ∧ ((sortByKey X).map Prod.fst).Pairwise (fun a b => keyLe a b = true) := by
  have hsp : (sortByKey X).Perm (sortByKey X') :=
    (sortByKey_perm X).trans (hperm.trans (sortByKey_perm X').symm)
  have hndX : ((sortByKey X).map Prod.fst).Nodup := by
    have hpm : ((sortByKey X).map Prod.fst).Perm (X.map Prod.fst) :=
      (sortByKey_perm X).map _
    exact hpm.nodup_iff.mpr hnd
  have heq : sortByKey X = sortByKey X' :=
    perm_sorted_keys_unique hsp (pairwise_sortByKey X) (pairwise_sortByKey X') hndX
  refine ⟨?_, ?_⟩
  · unfold buildCanonicalJSON
    rw [heq]
  · exact List.pairwise_map.mpr (pairwise_sortByKey X)

/-- Witness for C6: the two insertion orders of `{a: 2, b: 1}` canonicalize
to the same bytes, and those bytes have the keys in sorted order. -/
theorem claim_C6_witness :
    buildCanonicalJSON [("b", JValue.jnum 1), ("a", JValue.jnum 2)]
        = buildCanonicalJSON [("a", JValue.jnum 2), ("b", JValue.jnum 1)]
      ∧ buildCanonicalJSON [("b", JValue.jnum 1), ("a", JValue.jnum 2)]
          = "\x7b\"a\":2,\"b\":1\x7d" :=
  ⟨(claim_C6 [("b", JValue.jnum 1), ("a", JValue.jnum 2)]
      [("a", JValue.jnum 2), ("b", JValue.jnum 1)] (by decide)
      (List.Perm.swap ("a", JValue.jnum 2) ("b", JValue.jnum 1) [])).1,
   by decide⟩

/-! ### Lemmas: decimal serialization round-trips -/


theorem digitsBase10_eq : ∀ (fuel n : Nat), n ≤ fuel → digitsBase10 fuel n = Nat.digits 10 n := by
  intro fuel
  induction fuel with
  | zero =>
    intro n hn
    interval_cases n
    simp [digitsBase10]
  | succ f ih =>
    intro n hn
    by_cases h0 : n = 0
    · subst h0; simp [digitsBase10]
    · have hlt : n / 10 < n := Nat.div_lt_self (Nat.pos_of_ne_zero h0) (by norm_num)
      simp only [digitsBase10, h0, if_false]
      rw [ih (n / 10) (by omega), Nat.digits_def' (by norm_num : 1 < 10) (Nat.pos_of_ne_zero h0)]

theorem digitChar_isDigit : ∀ d, d < 10 → isDigitChar (digitChar d) = true ∧ digitVal (digitChar d) = d := by
  decide

theorem natReprChars_ne_nil (n : Nat) : natReprChars n ≠ [] := by
  unfold natReprChars
  by_cases h : n = 0
  · simp [h]
  · simp only [h, if_false]
    intro hc
    have hdig : Nat.digits 10 n = [] := by
      rw [natDigits10, digitsBase10_eq n n le_rfl] at hc
      simpa using hc
    exact (Nat.digits_ne_nil_iff_ne_zero.mpr h) hdig

theorem natReprChars_digits (n : Nat) : ∀ c ∈ natReprChars n, isDigitChar c = true := by
  intro c hc
  unfold natReprChars at hc
  by_cases h : n = 0
  · simp [h] at hc
    subst hc
    decide
  · simp only [h, if_false, List.mem_reverse, List.mem_map] at hc
    rcases hc with ⟨d, hd, rfl⟩
    rw [natDigits10, digitsBase10_eq n n le_rfl] at hd
    exact (digitChar_isDigit d (Nat.digits_lt_base (by norm_num) hd)).1

theorem foldl_digitChars (ds : List Nat) (hds : ∀ d ∈ ds, d < 10) :
    decNatChars ((ds.map digitChar).reverse) = Nat.ofDigits 10 ds := by
  induction ds with
  | nil => simp [decNatChars]
  | cons d tl ih =>
    simp only [List.map_cons, List.reverse_cons]
    unfold decNatChars at ih ⊢
    rw [List.foldl_append]
    simp only [List.foldl]
    rw [ih (fun x hx => hds x (List.mem_cons_of_mem d hx)),
      Nat.ofDigits_cons, (digitChar_isDigit d (hds d (List.mem_cons_self d tl))).2]
    ring

theorem decNatChars_natReprChars (n : Nat) : decNatChars (natReprChars n) = n := by
  by_cases h : n = 0
  · subst h; decide
  · unfold natReprChars
    simp only [h, if_false]
    rw [natDigits10, digitsBase10_eq n n le_rfl,
      foldl_digitChars _ (fun d hd => Nat.digits_lt_base (by norm_num) hd),
      Nat.ofDigits_digits]

theorem readDigits_append (ds rest : List Char) (hds : ∀ c ∈ ds, isDigitChar c = true)
    (hrest : ∀ c, rest.head? = some c → isDigitChar c = false) :
    readDigits (ds ++ rest) = (ds, rest) := by
  induction ds with
  | nil =>
    simp only [List.nil_append]
    cases rest with
    | nil => rfl
    | cons c l =>
      have hcf := hrest c rfl
      simp [readDigits, hcf]
  | cons c l ih =>
    have hc := hds c (List.mem_cons_self c l)
    simp [readDigits, hc, ih (fun x hx => hds x (List.mem_cons_of_mem c hx))]

theorem isDigitChar_ne_dash {c : Char} (h : isDigitChar c = true) : ¬ (c = '-') := by
  intro heq
  subst heq
  simp [isDigitChar] at h

theorem decInt_intRepr (i : Int) (rest : List Char)
    (hrest : ∀ c, rest.head? = some c → isDigitChar c = false) :
    decInt (intReprChars i ++ rest) = some (i, rest) := by
  unfold intReprChars
  obtain ⟨c, l, hcl⟩ := List.exists_cons_of_ne_nil (natReprChars_ne_nil i.natAbs)
  have hread : readDigits (natReprChars i.natAbs ++ rest) = (natReprChars i.natAbs, rest) :=
    readDigits_append _ _ (natReprChars_digits _) hrest
  have hdec : decNatChars (c :: l) = i.natAbs := by
    rw [← hcl, decNatChars_natReprChars]
  by_cases hneg : i < 0
  · simp only [hneg, if_true, List.cons_append]
    simp only [decInt]
    rw [if_true, hread, hcl]
    show some (-(decNatChars (c :: l) : Int), rest) = some (i, rest)
    rw [hdec]
    have hi : -((i.natAbs : Int)) = i := by omega
    rw [hi]
  · simp only [hneg, if_false]
    have hcdig : isDigitChar c = true :=
      natReprChars_digits i.natAbs c (by rw [hcl]; exact List.mem_cons_self c l)
    rw [hcl, List.cons_append]
    simp only [decInt]
    rw [if_neg (isDigitChar_ne_dash hcdig), ← List.cons_append, ← hcl, hread, hcl]
    show some ((decNatChars (c :: l) : Int), rest) = some (i, rest)
    rw [hdec]
    have hi : ((i.natAbs : Int)) = i := by omega
    rw [hi]

/-! ### Lemmas: JSON string escaping round-trip -/


theorem hexVal_hexChar : ∀ m, m < 16 → hexVal (hexChar m) = m := by decide

theorem escChar_length (c : Char) : 1 ≤ (escChar c).length := by
  unfold escChar
  split_ifs <;> simp

theorem escStr_length (s : List Char) : s.length ≤ (escStr s).length := by
  induction s with
  | nil => simp [escStr]
  | cons c l ih =>
    simp only [escStr, List.length_append, List.length_cons]
    have := escChar_length c
    omega

theorem decStrBody_escape : ∀ (s rest : List Char) (fuel : Nat), s.length + 1 ≤ fuel →
    decStrBody fuel (escStr s ++ '"' :: rest) = some (s, rest) := by
  intro s
  induction s with
  | nil =>
    intro rest fuel hf
    obtain ⟨f, rfl⟩ : ∃ f, fuel = f + 1 := ⟨fuel - 1, by omega⟩
    simp [escStr, decStrBody]
  | cons c l ih =>
    intro rest fuel hf
    obtain ⟨f, rfl⟩ : ∃ f, fuel = f + 1 := ⟨fuel - 1, by omega⟩
    have hfl : l.length + 1 ≤ f := by
      simp only [List.length_cons] at hf
      omega
    have ihl := ih rest f hfl
    show decStrBody (f + 1) ((escChar c ++ escStr l) ++ '"' :: rest) = some (c :: l, rest)
    rw [List.append_assoc]
    unfold escChar
    by_cases h1 : c = '"'
    · subst h1
      simp [decStrBody, unescapeChar, ihl]
    · rw [if_neg h1]
      by_cases h2 : c = '\\'
      · subst h2
        simp [decStrBody, unescapeChar, ihl]
      · rw [if_neg h2]
        by_cases h3 : c = '\x08'
        · subst h3
          simp [decStrBody, unescapeChar, ihl]
        · rw [if_neg h3]
          by_cases h4 : c = '\x0c'
          · subst h4
            simp [decStrBody, unescapeChar, ihl]
          · rw [if_neg h4]
            by_cases h5 : c = '\n'
            · subst h5
              simp [decStrBody, unescapeChar, ihl]
            · rw [if_neg h5]
              by_cases h6 : c = '\r'
              · subst h6
                simp [decStrBody, unescapeChar, ihl]
              · rw [if_neg h6]
                by_cases h7 : c = '\t'
                · subst h7
                  simp [decStrBody, unescapeChar, ihl]
                · rw [if_neg h7]
                  by_cases h8 : c.toNat < 32
                  · rw [if_pos h8]
                    have hdiv : c.toNat / 16 < 16 := by omega
                    have hmod : c.toNat % 16 < 16 := by omega
                    simp only [List.cons_append, List.nil_append, decStrBody]
                    rw [if_neg (by decide), if_true]
                    rw [ihl]
                    rw [hexVal_hexChar _ hdiv, hexVal_hexChar _ hmod]
                    have : 16 * (c.toNat / 16) + c.toNat % 16 = c.toNat := by omega
                    rw [this, Char.ofNat_toNat]
                  · rw [if_neg h8]
                    simp only [List.cons_append, List.nil_append, decStrBody]
                    rw [if_neg h1, if_neg h2, ihl]

/-! ### Lemmas: integer-array serialization round-trips -/


theorem intReprChars_head (i : Int) :
    ∃ c l, intReprChars i = c :: l ∧ (isDigitChar c = true ∨ c = '-') := by
  unfold intReprChars
  by_cases h : i < 0
  · exact ⟨'-', natReprChars i.natAbs, by simp [h], Or.inr rfl⟩
  · obtain ⟨c, l, hcl⟩ := List.exists_cons_of_ne_nil (natReprChars_ne_nil i.natAbs)
    refine ⟨c, l, by simp [h, hcl], Or.inl ?_⟩
    exact natReprChars_digits _ c (by rw [hcl]; exact List.mem_cons_self c l)

theorem intReprChars_ne_nil (i : Int) : intReprChars i ≠ [] := by
  obtain ⟨c, l, hcl, -⟩ := intReprChars_head i
  simp [hcl]

theorem head_not_digit_cons {x : Char} (hx : isDigitChar x = false) (t : List Char) :
    ∀ c, ((x :: t).head? = some c) → isDigitChar c = false := by
  intro c hc
  simp only [List.head?_cons, Option.some.injEq] at hc
  rw [← hc]
  exact hx

theorem digit_or_dash_ne_rb {c : Char} (h : isDigitChar c = true ∨ c = '-') : ¬ (c = ']') := by
  intro he
  subst he
  rcases h with h | h
  · exact absurd h (by decide)
  · exact absurd h (by decide)

theorem stringifyChars_ne_nil (v : JValue) : stringifyChars v ≠ [] := by
  cases v with
  | jnum i => exact intReprChars_ne_nil i
  | jstr s => simp [stringifyChars, quoteChars]
  | jarr xs => simp [stringifyChars]

theorem stringifySep_length (xs : List JValue) : xs.length ≤ (stringifySep xs).length + 1 := by
  induction xs with
  | nil => simp [stringifySep]
  | cons x t ih =>
    cases t with
    | nil => simp [stringifySep]
    | cons y ys =>
      simp only [stringifySep, List.length_append, List.length_cons] at ih ⊢
      have h1 : 1 ≤ (stringifyChars x).length :=
        List.length_pos.mpr (stringifyChars_ne_nil x)
      omega

theorem decIntElems_spec : ∀ (row : List Int) (rest : List Char) (fuel : Nat),
    row ≠ [] → row.length ≤ fuel →
    decIntElems fuel (stringifySep (row.map JValue.jnum) ++ ']' :: rest) = some (row, rest) := by
  intro row
  induction row with
  | nil => intro rest fuel h _; exact absurd rfl h
  | cons x xs ih =>
    intro rest fuel _ hlen
    have h1 : 1 ≤ fuel := by
      simp only [List.length_cons] at hlen
      omega
    obtain ⟨f, rfl⟩ : ∃ f, fuel = f + 1 := ⟨fuel - 1, by omega⟩
    cases xs with
    | nil =>
      show decIntElems (f + 1) (intReprChars x ++ ']' :: rest) = some ([x], rest)
      simp only [decIntElems]
      rw [decInt_intRepr x (']' :: rest) (head_not_digit_cons (by decide) _)]
      rfl
    | cons y ys =>
      show decIntElems (f + 1)
          ((intReprChars x ++ ',' :: stringifySep ((y :: ys).map JValue.jnum)) ++ ']' :: rest)
        = some (x :: y :: ys, rest)
      rw [List.append_assoc, List.cons_append]
      simp only [decIntElems]
      rw [decInt_intRepr x _ (head_not_digit_cons (by decide) _)]
      show (match decIntElems f (stringifySep ((y :: ys).map JValue.jnum) ++ ']' :: rest) with
            | some (zs, r) => some (x :: zs, r)
            | none => none) = some (x :: y :: ys, rest)
      have hlen' : (y :: ys).length ≤ f := by
        simp only [List.length_cons] at hlen ⊢
        omega
      rw [ih rest f (by simp) hlen']

theorem decIntList_spec (row : List Int) (rest : List Char) (fuel : Nat)
    (hf : row.length ≤ fuel) :
    decIntList fuel (stringifyChars (JValue.jarr (row.map JValue.jnum)) ++ rest)
      = some (row, rest) := by
  cases row with
  | nil =>
    show decIntList fuel ('[' :: ((stringifySep [] ++ [']']) ++ rest)) = some ([], rest)
    simp [decIntList, stringifySep]
  | cons x xs =>
    show decIntList fuel
        ('[' :: ((stringifySep ((x :: xs).map JValue.jnum) ++ [']']) ++ rest))
      = some (x :: xs, rest)
    have hspec := decIntElems_spec (x :: xs) rest fuel (by simp) hf
    have hsep : ∃ t, stringifySep ((x :: xs).map JValue.jnum) = intReprChars x ++ t := by
      cases xs with
      | nil => exact ⟨[], by simp [stringifySep, stringifyChars]⟩
      | cons y ys => exact ⟨',' :: stringifySep ((y :: ys).map JValue.jnum), rfl⟩
    obtain ⟨t, ht⟩ := hsep
    obtain ⟨c, l, hcl, hc⟩ := intReprChars_head x
    rw [ht, hcl, List.append_assoc, List.cons_append, List.cons_append]
    rw [ht, hcl, List.append_assoc, List.cons_append] at hspec
    simp only [decIntList, List.singleton_append]
    rw [if_true, if_neg (digit_or_dash_ne_rb hc)]
    simp only [List.append_assoc]
    exact hspec

/-! ### Lemmas: sample-array serialization round-trips -/


theorem rowSerial_length (row : List Int) :
    row.length ≤ (stringifyChars (JValue.jarr (row.map JValue.jnum))).length := by
  show row.length ≤ ('[' :: (stringifySep (row.map JValue.jnum) ++ [']'])).length
  have h := stringifySep_length (row.map JValue.jnum)
  simp only [List.length_map] at h
  simp only [List.length_cons, List.length_append]
  omega

theorem decSampleRows_spec : ∀ (rows : List (List Int)) (rest : List Char) (fuel : Nat),
    rows ≠ [] → rows.length ≤ fuel →
    decSampleRows fuel
        (stringifySep (rows.map (fun row => JValue.jarr (row.map JValue.jnum))) ++ ']' :: rest)
      = some (rows, rest) := by
  intro rows
  induction rows with
  | nil => intro rest fuel h _; exact absurd rfl h
  | cons r rs ih =>
    intro rest fuel _ hlen
    have h1 : 1 ≤ fuel := by
      simp only [List.length_cons] at hlen
      omega
    obtain ⟨f, rfl⟩ : ∃ f, fuel = f + 1 := ⟨fuel - 1, by omega⟩
    cases rs with
    | nil =>
      show decSampleRows (f + 1)
          (stringifyChars (JValue.jarr (r.map JValue.jnum)) ++ ']' :: rest) = some ([r], rest)
      simp only [decSampleRows]
      have hfr : r.length
          ≤ (stringifyChars (JValue.jarr (r.map JValue.jnum)) ++ ']' :: rest).length := by
        have := rowSerial_length r
        simp only [List.length_append]
        omega
      rw [decIntList_spec r (']' :: rest) _ hfr]
      rfl
    | cons r₂ rs₂ =>
      show decSampleRows (f + 1)
          ((stringifyChars (JValue.jarr (r.map JValue.jnum))
              ++ ',' :: stringifySep ((r₂ :: rs₂).map (fun row => JValue.jarr (row.map JValue.jnum))))
            ++ ']' :: rest)
        = some (r :: r₂ :: rs₂, rest)
      rw [List.append_assoc, List.cons_append]
      simp only [decSampleRows]
      have hfr : r.length
          ≤ (stringifyChars (JValue.jarr (r.map JValue.jnum))
              ++ ',' :: (stringifySep ((r₂ :: rs₂).map (fun row => JValue.jarr (row.map JValue.jnum)))
                ++ ']' :: rest)).length := by
        have := rowSerial_length r
        simp only [List.length_append]
        omega
      rw [decIntList_spec r _ _ hfr]
      show (match decSampleRows f
              (stringifySep ((r₂ :: rs₂).map (fun row => JValue.jarr (row.map JValue.jnum)))
                ++ ']' :: rest) with
            | some (zs, r') => some (r :: zs, r')
            | none => none) = some (r :: r₂ :: rs₂, rest)
      have hlen' : (r₂ :: rs₂).length ≤ f := by
        simp only [List.length_cons] at hlen ⊢
        omega
      rw [ih rest f (by simp) hlen']

theorem decSamples_spec (samples : List (List Int)) (rest : List Char) (fuel : Nat)
    (hf : samples.length ≤ fuel) :
    decSamples fuel (stringifyChars (samplesJ samples) ++ rest) = some (samples, rest) := by
  cases samples with
  | nil =>
    show decSamples fuel ('[' :: ((stringifySep [] ++ [']']) ++ rest)) = some ([], rest)
    simp [decSamples, stringifySep]
  | cons r rs =>
    have hspec := decSampleRows_spec (r :: rs) rest fuel (by simp) hf
    have hsep : ∃ t, stringifySep ((r :: rs).map (fun row => JValue.jarr (row.map JValue.jnum)))
        = stringifyChars (JValue.jarr (r.map JValue.jnum)) ++ t := by
      cases rs with
      | nil => exact ⟨[], by simp [stringifySep]⟩
      | cons r₂ rs₂ => exact ⟨_, rfl⟩
    obtain ⟨t, ht⟩ := hsep
    show decSamples fuel
        ('[' :: ((stringifySep ((r :: rs).map (fun row => JValue.jarr (row.map JValue.jnum)))
            ++ [']']) ++ rest))
      = some (r :: rs, rest)
    rw [ht] at hspec ⊢
    show decSamples fuel
        ('[' :: ((('[' :: (stringifySep (r.map JValue.jnum) ++ [']'])) ++ t ++ [']']) ++ rest))
      = some (r :: rs, rest)
    simp only [List.cons_append]
    simp only [decSamples]
    rw [if_true, if_neg (by decide)]
    simp only [List.append_assoc, List.singleton_append]
    have hrow : stringifyChars (JValue.jarr (r.map JValue.jnum))
        = '[' :: (stringifySep (r.map JValue.jnum) ++ [']']) := rfl
    rw [hrow] at hspec
    simp only [List.cons_append, List.append_assoc, List.singleton_append] at hspec
    exact hspec

theorem expectLit_append (lit rest : List Char) : expectLit lit (lit ++ rest) = some rest := by
  induction lit with
  | nil => rfl
  | cons c cs ih => simp [expectLit, ih]

/-! ### Lemmas: the canonical serialization is injective (parser round-trip) -/

theorem canonicalPayload_data (p : Payload) :
    (canonicalPayload p).data
      = "\x7b\"batteryPercent\":".data ++ (intReprChars p.batteryPercent
        ++ (",\"deviceId\":\"".data ++ (escStr p.deviceId.data
        ++ ('"' :: (",\"firmwareVersion\":".data ++ (intReprChars p.firmwareVersion
        ++ (",\"rawAccSamples\":".data ++ (stringifyChars (samplesJ p.rawAccSamples)
        ++ (",\"stepCount\":".data ++ (intReprChars p.stepCount
        ++ (",\"timestamp\":".data ++ (intReprChars p.timestamp
        ++ ['\x7d'])))))))))))) := by
  have hsort : sortByKey (payloadFields p)
      = [("batteryPercent", JValue.jnum p.batteryPercent),
         ("deviceId", JValue.jstr p.deviceId),
         ("firmwareVersion", JValue.jnum p.firmwareVersion),
         ("rawAccSamples", samplesJ p.rawAccSamples),
         ("stepCount", JValue.jnum p.stepCount),
         ("timestamp", JValue.jnum p.timestamp)] := rfl
  show (stringifyObjChars (sortByKey (payloadFields p))) = _
  rw [hsort]
  simp [stringifyObjChars, objBody, entryChars, quoteChars, stringifyChars, escStr, escChar]


theorem head_not_digit_of_eq {l : List Char} {x : Char} {t : List Char}
    (he : l = x :: t) (hx : isDigitChar x = false) :
    ∀ c, l.head? = some c → isDigitChar c = false := by
  subst he
  exact head_not_digit_cons hx t

theorem samplesJ_length (samples : List (List Int)) :
    samples.length ≤ (stringifyChars (samplesJ samples)).length := by
  show samples.length
      ≤ ('[' :: (stringifySep (samples.map (fun row => JValue.jarr (row.map JValue.jnum))) ++ [']'])).length
  have h := stringifySep_length (samples.map (fun row => JValue.jarr (row.map JValue.jnum)))
  simp only [List.length_map] at h
  simp only [List.length_cons, List.length_append]
  omega

theorem parse_canonical (p : Payload) :
    parsePayloadChars (canonicalPayload p).data = some p := by
  obtain ⟨⟨dev⟩, sc, ts, fw, bat, samples⟩ := p
  rw [canonicalPayload_data]
  have hbat : ∀ c, ((",\"deviceId\":\"".data ++ (escStr dev ++ ('"' :: (",\"firmwareVersion\":".data ++ (intReprChars fw ++ (",\"rawAccSamples\":".data ++ (stringifyChars (samplesJ samples) ++ (",\"stepCount\":".data ++ (intReprChars sc ++ (",\"timestamp\":".data ++ (intReprChars ts ++ ['\x7d']))))))))))) : List Char).head? = some c → isDigitChar c = false :=
    head_not_digit_of_eq rfl (by decide)
  have hdev : dev.length + 1 ≤ (escStr dev ++ '"' :: (",\"firmwareVersion\":".data ++ (intReprChars fw ++ (",\"rawAccSamples\":".data ++ (stringifyChars (samplesJ samples) ++ (",\"stepCount\":".data ++ (intReprChars sc ++ (",\"timestamp\":".data ++ (intReprChars ts ++ ['\x7d']))))))))).length := by
    have h := escStr_length dev
    simp only [List.length_append, List.length_cons]
    omega
  have hfw : ∀ c, ((",\"rawAccSamples\":".data ++ (stringifyChars (samplesJ samples) ++ (",\"stepCount\":".data ++ (intReprChars sc ++ (",\"timestamp\":".data ++ (intReprChars ts ++ ['\x7d'])))))) : List Char).head? = some c → isDigitChar c = false :=
    head_not_digit_of_eq rfl (by decide)
  have hsam : samples.length ≤ (stringifyChars (samplesJ samples) ++ (",\"stepCount\":".data ++ (intReprChars sc ++ (",\"timestamp\":".data ++ (intReprChars ts ++ ['\x7d']))))).length := by
    have h := samplesJ_length samples
    simp only [List.length_append]
    omega
  have hsc : ∀ c, ((",\"timestamp\":".data ++ (intReprChars ts ++ ['\x7d'])) : List Char).head? = some c → isDigitChar c = false :=
    head_not_digit_of_eq rfl (by decide)
  have hts : ∀ c, (['\x7d'] : List Char).head? = some c → isDigitChar c = false := by
    intro c hc
    simp only [List.head?_cons, Option.some.injEq] at hc
    rw [← hc]
    decide
  have ebat : decInt (intReprChars bat ++ (",\"deviceId\":\"".data ++ (escStr dev ++ ('"' :: (",\"firmwareVersion\":".data ++ (intReprChars fw ++ (",\"rawAccSamples\":".data ++ (stringifyChars (samplesJ samples) ++ (",\"stepCount\":".data ++ (intReprChars sc ++ (",\"timestamp\":".data ++ (intReprChars ts ++ ['\x7d'])))))))))))) = some (bat, (",\"deviceId\":\"".data ++ (escStr dev ++ ('"' :: (",\"firmwareVersion\":".data ++ (intReprChars fw ++ (",\"rawAccSamples\":".data ++ (stringifyChars (samplesJ samples) ++ (",\"stepCount\":".data ++ (intReprChars sc ++ (",\"timestamp\":".data ++ (intReprChars ts ++ ['\x7d'])))))))))))) :=
    decInt_intRepr bat _ hbat
  have edev : decStrBody (escStr dev ++ '"' :: (",\"firmwareVersion\":".data ++ (intReprChars fw ++ (",\"rawAccSamples\":".data ++ (stringifyChars (samplesJ samples) ++ (",\"stepCount\":".data ++ (intReprChars sc ++ (",\"timestamp\":".data ++ (intReprChars ts ++ ['\x7d']))))))))).length (escStr dev ++ '"' :: (",\"firmwareVersion\":".data ++ (intReprChars fw ++ (",\"rawAccSamples\":".data ++ (stringifyChars (samplesJ samples) ++ (",\"stepCount\":".data ++ (intReprChars sc ++ (",\"timestamp\":".data ++ (intReprChars ts ++ ['\x7d'])))))))))
      = some (dev, (",\"firmwareVersion\":".data ++ (intReprChars fw ++ (",\"rawAccSamples\":".data ++ (stringifyChars (samplesJ samples) ++ (",\"stepCount\":".data ++ (intReprChars sc ++ (",\"timestamp\":".data ++ (intReprChars ts ++ ['\x7d']))))))))) :=
    decStrBody_escape dev _ _ hdev
  have efw : decInt (intReprChars fw ++ (",\"rawAccSamples\":".data ++ (stringifyChars (samplesJ samples) ++ (",\"stepCount\":".data ++ (intReprChars sc ++ (",\"timestamp\":".data ++ (intReprChars ts ++ ['\x7d']))))))) = some (fw, (",\"rawAccSamples\":".data ++ (stringifyChars (samplesJ samples) ++ (",\"stepCount\":".data ++ (intReprChars sc ++ (",\"timestamp\":".data ++ (intReprChars ts ++ ['\x7d']))))))) :=
    decInt_intRepr fw _ hfw
  have esam : decSamples (stringifyChars (samplesJ samples) ++ (",\"stepCount\":".data ++ (intReprChars sc ++ (",\"timestamp\":".data ++ (intReprChars ts ++ ['\x7d']))))).length
      (stringifyChars (samplesJ samples) ++ (",\"stepCount\":".data ++ (intReprChars sc ++ (",\"timestamp\":".data ++ (intReprChars ts ++ ['\x7d']))))) = some (samples, (",\"stepCount\":".data ++ (intReprChars sc ++ (",\"timestamp\":".data ++ (intReprChars ts ++ ['\x7d']))))) :=
    decSamples_spec samples _ _ hsam
  have esc : decInt (intReprChars sc ++ (",\"timestamp\":".data ++ (intReprChars ts ++ ['\x7d']))) = some (sc, (",\"timestamp\":".data ++ (intReprChars ts ++ ['\x7d']))) :=
    decInt_intRepr sc _ hsc
  have ets : decInt (intReprChars ts ++ ['\x7d']) = some (ts, ['\x7d']) :=
    decInt_intRepr ts _ hts
  simp only [parsePayloadChars, expectLit_append, ebat, edev, efw, esam, esc, ets]


theorem canonicalPayload_inj {p p' : Payload}
    (h : canonicalPayload p = canonicalPayload p') : p = p' := by
  have h1 := parse_canonical p
  rw [h, parse_canonical p'] at h1
  exact (Option.some.inj h1).symm

/-- **C1**: `verifySignature` is detached verification of the SHA-256 hash of
the canonical JSON of the payload (the signature is over the hash, not the raw
message); signing the hash with the matching key and verifying returns `true`,
and changing the payload or the signature in any way makes verification return
`false`. -/
theorem claim_C1 (p : Payload) (sig : DetachedSig) (pk k : Nat) :
    verifySignature p sig pk = naclVerifyDetached (sha256 (canonicalPayload p)) sig pk
    ∧ verifySignature p (signData p k) k = true
    ∧ (∀ p' : Payload, p' ≠ p → verifySignature p' (signData p k) k = false)
    ∧ (∀ sig' : DetachedSig, sig' ≠ signData p k → verifySignature p sig' k = false) := by
  refine ⟨rfl, verify_signData_self p k, ?_, ?_⟩
  · intro p' hne
    simp only [verifySignature, signData, naclSignDetached, naclVerifyDetached, sha256]
    rw [decide_eq_false_iff_not]
    rintro ⟨hd, -⟩
    exact hne (canonicalPayload_inj (congrArg Sha256Digest.msg hd)).symm
  · intro sig' hne
    obtain ⟨dg, sg⟩ := sig'
    simp only [verifySignature, naclVerifyDetached]
    rw [decide_eq_false_iff_not]
    rintro ⟨hd, hs⟩
    exact hne (by rw [hd, hs]; rfl)

theorem claim_C1_witness :
    verifySignature payloadW (signData payloadW 7) 7 = true
    ∧ verifySignature payloadMutW (signData payloadW 7) 7 = false
    ∧ verifySignature payloadW (DetachedSig.mk (sha256 (canonicalPayload payloadW)) 8) 7 = false :=
  ⟨(claim_C1 payloadW (signData payloadW 7) 7 7).2.1,
   (claim_C1 payloadW (signData payloadW 7) 7 7).2.2.1 payloadMutW (by decide),
   (claim_C1 payloadW (signData payloadW 7) 7 7).2.2.2
     (DetachedSig.mk (sha256 (canonicalPayload payloadW)) 8) (by decide)⟩

/-- **C10**: when the wire `batteryPercent` is `0` or absent (likewise
`firmwareVersion`), the server substitutes `100` both in the payload it
verifies against the signature and in the stored row; consequently a payload
whose signed canonical form contained `batteryPercent = 0` never verifies,
whatever signature accompanies it. -/
theorem claim_C10 (msg : StepDataMsg) :
    ((msg.batteryPercent = none ∨ msg.batteryPercent = some 0) →
        (serverPayload msg).batteryPercent = 100
        ∧ ∀ db deviceId stepCount timestamp sig verified now,
            (storeStepData db deviceId stepCount timestamp msg.rawAccSamples
                msg.batteryPercent sig verified now).steps
              = db.steps ++
                  [{ id := db.nextStepId, device_id := deviceId, step_count := stepCount,
                     timestamp := timestamp,
                     raw_samples := ⟨stringifyChars (samplesJ (msg.rawAccSamples.getD []))⟩,
                     battery_percent := 100, signature := sig, verified := verified,
                     received_at := now, submitted_to_chain := false, tx_digest := none }])
    ∧ ((msg.firmwareVersion = none ∨ msg.firmwareVersion = some 0) →
        (serverPayload msg).firmwareVersion = 100)
    ∧ (∀ (p : Payload) (k pk : Nat), p.batteryPercent = 0 →
        verifySignature (serverPayload msg) (signData p k) pk = false) := by
  refine ⟨?_, ?_, ?_⟩
  · intro hb
    have h100 : jsOrInt msg.batteryPercent 100 = 100 := by
      rcases hb with h | h <;> simp [h, jsOrInt]
    refine ⟨h100, ?_⟩
    intro db deviceId stepCount timestamp sig verified now
    simp only [storeStepData, h100]
  · intro hf
    rcases hf with h | h <;> simp [serverPayload, h, jsOrInt]
  · intro p k pk hb
    simp only [verifySignature, signData, naclSignDetached, naclVerifyDetached, sha256]
    rw [decide_eq_false_iff_not]
    rintro ⟨hd, -⟩
    have hp : p = serverPayload msg := canonicalPayload_inj (congrArg Sha256Digest.msg hd)
    have h0 : jsOrInt msg.batteryPercent 100 = 0 := by
      have := hb
      rw [hp] at this
      exact this
    revert h0
    cases msg.batteryPercent with
    | none => simp [jsOrInt]
    | some x =>
      by_cases hx : x = 0
      · simp [jsOrInt, hx]
      · simp [jsOrInt, hx]

theorem claim_C10_witness :
    (serverPayload msgBat0W).batteryPercent = 100
    ∧ verifySignature (serverPayload msgBat0W) (signData payloadBat0W 7) 7 = false :=
  ⟨((claim_C10 msgBat0W).1 (Or.inr rfl)).1,
   (claim_C10 msgBat0W).2.2 payloadBat0W 7 7 rfl⟩
